import Mathlib

/-!
Verification of the zone/subnet planning engine of the installer repository.

The development shallowly embeds:
* the managed-VPC CIDR planner `setSubnetsManagedVPC` and the BYO-VPC copier
  `setSubnetsBYOVPC` from `pkg/asset/manifests/aws/zones.go`,
* the zone-set extraction `extractZonesFromInstallConfig` from the same file,
* the subnet classifier `isSubnetPublic` and the subnet-gathering loops from
  `pkg/asset/installconfig/aws/subnet.go`.

Machine integers are modelled as `Nat` (IPv4 addresses are below `2 ^ 32` and
the arithmetic performed never overflows, since subnet offsets stay inside the
parent block).  Fallible code returns `Except`; the planner, which mutates a
caller-supplied network descriptor in Go, is modelled as explicit state
passing returning the final descriptor together with an optional error.
-/

/-! ## Ceiling base-2 logarithm

`SplitIntoSubnetsIPv4` rounds the requested block count up to the next power
of two when computing the new prefix length.  A fuel-based structural
recursion keeps the function kernel-reducible. -/

def clog2Aux : Nat → Nat → Nat
  | 0, _ => 0
  | fuel + 1, n => if n ≤ 1 then 0 else clog2Aux fuel ((n + 1) / 2) + 1

/-- Ceiling of log₂: the least `b` with `n ≤ 2 ^ b` (and `0` for `n ≤ 1`). -/
def clog2 (n : Nat) : Nat := clog2Aux n n

theorem clog2Aux_congr : ∀ (f f' n : Nat), n ≤ f → n ≤ f' →
    clog2Aux f n = clog2Aux f' n := by
  intro f
  induction f with
  | zero =>
    intro f' n hf _
    interval_cases n
    cases f' <;> simp [clog2Aux]
  | succ f ih =>
    intro f' n hf hf'
    cases f' with
    | zero =>
      interval_cases n
      simp [clog2Aux]
    | succ f' =>
      simp only [clog2Aux]
      by_cases h1 : n ≤ 1
      · simp [h1]
      · simp only [h1, if_false]
        have harg : (n + 1) / 2 ≤ f ∧ (n + 1) / 2 ≤ f' := by omega
        rw [ih f' ((n + 1) / 2) harg.1 harg.2]

theorem clog2_eq_aux (f n : Nat) (h : n ≤ f) : clog2Aux f n = clog2 n :=
  clog2Aux_congr f n n h (Nat.le_refl n)

theorem le_two_pow_clog2 (n : Nat) : n ≤ 2 ^ clog2 n := by
  induction n using Nat.strong_induction_on with
  | _ n ih =>
    by_cases h1 : n ≤ 1
    · have : clog2 n = 0 := by
        unfold clog2
        cases n with
        | zero => simp [clog2Aux]
        | succ m => simp [clog2Aux]; omega
      rw [this]; simpa using h1
    · have hn2 : 2 ≤ n := by omega
      have hstep : clog2 n = clog2 ((n + 1) / 2) + 1 := by
        unfold clog2
        obtain ⟨f, rfl⟩ : ∃ f, n = f + 1 := ⟨n - 1, by omega⟩
        simp only [clog2Aux, h1, if_false]
        rw [clog2Aux_congr f ((f + 1 + 1) / 2) ((f + 1 + 1) / 2) (by omega) (by omega)]
      have hlt : (n + 1) / 2 < n := by omega
      have hrec := ih ((n + 1) / 2) hlt
      rw [hstep, pow_succ]
      omega

theorem one_le_clog2 (n : Nat) (h : 2 ≤ n) : 1 ≤ clog2 n := by
  unfold clog2
  obtain ⟨f, rfl⟩ : ∃ f, n = f + 1 := ⟨n - 1, by omega⟩
  simp only [clog2Aux]
  have : ¬ (f + 1 ≤ 1) := by omega
  simp [this]

/-! ## IPv4 CIDR blocks -/

/-- An IPv4 CIDR block: a base address (as a natural number below `2 ^ 32`)
together with a prefix length.  Mirrors Go's `*net.IPNet`. -/
structure CIDRv4 where
  addr : Nat
  plen : Nat
deriving DecidableEq, Repr

/-- Membership of an address in the address range covered by a CIDR block. -/
def cidrMem (x : Nat) (c : CIDRv4) : Prop :=
  c.addr ≤ x ∧ x < c.addr + 2 ^ (32 - c.plen)

instance (x : Nat) (c : CIDRv4) : Decidable (cidrMem x c) := by
  unfold cidrMem; infer_instance

/-- Two CIDR blocks are disjoint when no address lies in both. -/
def cidrDisjoint (c d : CIDRv4) : Prop :=
  ∀ x, cidrMem x c → cidrMem x d → False

/-- One CIDR block covers a sub-range of another. -/
def cidrSubRange (c d : CIDRv4) : Prop :=
  ∀ x, cidrMem x c → cidrMem x d

/-- Strict sub-range: contained, and some address of `d` lies outside `c`. -/
def cidrStrictSubRange (c d : CIDRv4) : Prop :=
  cidrSubRange c d ∧ ∃ x, cidrMem x d ∧ ¬ cidrMem x c

theorem cidrDisjoint_symm {c d : CIDRv4} (h : cidrDisjoint c d) :
    cidrDisjoint d c := fun x hx hy => h x hy hx

theorem cidrSubRange_trans {c d e : CIDRv4} (h1 : cidrSubRange c d)
    (h2 : cidrSubRange d e) : cidrSubRange c e :=
  fun x hx => h2 x (h1 x hx)

theorem cidrDisjoint_of_subRange_left {c c' d : CIDRv4}
    (hs : cidrSubRange c c') (hd : cidrDisjoint c' d) : cidrDisjoint c d :=
  fun x hx hy => hd x (hs x hx) hy

theorem cidrDisjoint_of_subRange_right {c d d' : CIDRv4}
    (hs : cidrSubRange d d') (hd : cidrDisjoint c d') : cidrDisjoint c d :=
  fun x hx hy => hd x hx (hs x hy)

/-- Modelled from the spec: the repository's CIDR splitter
`SplitIntoSubnetsIPv4` (package `pkg/asset/manifests/capiutils/cidr`) is not
included under `src/`; only its callers in `zones.go` are.  Per the spec's
numeric-semantics paragraph, the requested block count is rounded up to the
next power of two for the prefix-length calculation, only the first `n`
resulting equal blocks in address order are returned, and the call fails when
the parent prefix cannot accommodate the subdivision. -/
def SplitIntoSubnetsIPv4 (base : CIDRv4) (n : Nat) : Except String (List CIDRv4) :=
  let bits := clog2 n
  let q := base.plen + bits
  if 32 < q then
    Except.error "unable to split CIDR into subnets: not enough space"
  else
    Except.ok ((List.range n).map fun i => ⟨base.addr + i * 2 ^ (32 - q), q⟩)

theorem split_ok_length {base : CIDRv4} {n : Nat} {bs : List CIDRv4}
    (h : SplitIntoSubnetsIPv4 base n = Except.ok bs) : bs.length = n := by
  unfold SplitIntoSubnetsIPv4 at h
  by_cases hq : 32 < base.plen + clog2 n
  · simp [hq] at h
  · simp [hq] at h
    simp [← h]

theorem split_ok_plen_le {base : CIDRv4} {n : Nat} {bs : List CIDRv4}
    (h : SplitIntoSubnetsIPv4 base n = Except.ok bs) :
    base.plen + clog2 n ≤ 32 := by
  unfold SplitIntoSubnetsIPv4 at h
  by_cases hq : 32 < base.plen + clog2 n
  · simp [hq] at h
  · omega

theorem split_ok_getD {base : CIDRv4} {n : Nat} {bs : List CIDRv4}
    (h : SplitIntoSubnetsIPv4 base n = Except.ok bs) (i : Nat) (hi : i < n)
    (d : CIDRv4) :
    bs.getD i d =
      ⟨base.addr + i * 2 ^ (32 - (base.plen + clog2 n)), base.plen + clog2 n⟩ := by
  unfold SplitIntoSubnetsIPv4 at h
  by_cases hq : 32 < base.plen + clog2 n
  · simp [hq] at h
  · simp only [hq, if_false] at h
    rw [Except.ok.injEq] at h
    subst h
    rw [List.getD_eq_getElem?_getD]
    rw [List.getElem?_map]
    simp [List.getElem?_range hi]

/-! ### Disjointness and containment of split blocks -/

/-- Two distinct blocks of an equal-width subdivision are disjoint. -/
theorem splitBlock_disjoint {a q : Nat} {i j : Nat} (hij : i ≠ j) :
    cidrDisjoint ⟨a + i * 2 ^ (32 - q), q⟩ ⟨a + j * 2 ^ (32 - q), q⟩ := by
  intro x hx hy
  simp only [cidrMem] at hx hy
  rcases Nat.lt_or_ge i j with h | h
  · have : (i + 1) * 2 ^ (32 - q) ≤ j * 2 ^ (32 - q) :=
      Nat.mul_le_mul_right _ (by omega)
    have hpos : 0 < 2 ^ (32 - q) := Nat.pos_pow_of_pos _ (by omega)
    nlinarith [hx.1, hx.2, hy.1, hy.2]
  · have hj : j < i := by omega
    have : (j + 1) * 2 ^ (32 - q) ≤ i * 2 ^ (32 - q) :=
      Nat.mul_le_mul_right _ (by omega)
    nlinarith [hx.1, hx.2, hy.1, hy.2]

/-- Each of the first `n` blocks of a subdivision lies inside the parent. -/
theorem splitBlock_subRange {base : CIDRv4} {n i : Nat}
    (hq : base.plen + clog2 n ≤ 32) (hi : i < n) :
    cidrSubRange ⟨base.addr + i * 2 ^ (32 - (base.plen + clog2 n)),
        base.plen + clog2 n⟩ base := by
  intro x hx
  simp only [cidrMem] at hx ⊢
  set q := base.plen + clog2 n with hqdef
  have hsplit : 32 - base.plen = (q - base.plen) + (32 - q) := by omega
  have hpow : 2 ^ (32 - base.plen) = 2 ^ (q - base.plen) * 2 ^ (32 - q) := by
    rw [hsplit, pow_add]
  have hn : n ≤ 2 ^ (q - base.plen) := by
    have := le_two_pow_clog2 n
    have : q - base.plen = clog2 n := by omega
    rw [this]
    exact le_two_pow_clog2 n
  have hub : (i + 1) * 2 ^ (32 - q) ≤ 2 ^ (q - base.plen) * 2 ^ (32 - q) :=
    Nat.mul_le_mul_right _ (by omega)
  constructor
  · omega
  · rw [hpow]
    nlinarith [hx.2]

/-- When the subdivision genuinely narrows the prefix, each block is a strict
sub-range of the parent. -/
theorem splitBlock_strictSubRange {base : CIDRv4} {n i : Nat}
    (hq : base.plen + clog2 n ≤ 32) (hi : i < n)
    (hlt : base.plen < base.plen + clog2 n) :
    cidrStrictSubRange ⟨base.addr + i * 2 ^ (32 - (base.plen + clog2 n)),
        base.plen + clog2 n⟩ base := by
  refine ⟨splitBlock_subRange hq hi, ?_⟩
  set q := base.plen + clog2 n with hqdef
  have hsize : 2 ^ (32 - q) < 2 ^ (32 - base.plen) :=
    Nat.pow_lt_pow_right (by omega) (by omega)
  have hpos : 0 < 2 ^ (32 - q) := Nat.pos_pow_of_pos _ (by omega)
  by_cases hi0 : i = 0
  · subst hi0
    refine ⟨base.addr + 2 ^ (32 - q), ?_, ?_⟩
    · simp only [cidrMem]
      omega
    · simp only [cidrMem]
      omega
  · refine ⟨base.addr, ?_, ?_⟩
    · constructor
      · exact Nat.le_refl _
      · have : 0 < 2 ^ (32 - base.plen) := Nat.pos_pow_of_pos _ (by omega)
        omega
    · simp only [cidrMem]
      intro hmem
      have h1 : 1 * 2 ^ (32 - q) ≤ i * 2 ^ (32 - q) :=
        Nat.mul_le_mul_right _ (by omega)
      omega

/-- Rendering a CIDR block in dotted-quad/prefix notation, mirroring Go's
`(*net.IPNet).String()` for IPv4 networks. -/
def CIDRv4.render (c : CIDRv4) : String :=
  toString (c.addr / 16777216 % 256) ++ "." ++ toString (c.addr / 65536 % 256)
    ++ "." ++ toString (c.addr / 256 % 256) ++ "." ++ toString (c.addr % 256)
    ++ "/" ++ toString c.plen

/-! ## Sorted string sets

`zones.go` keeps zones in `sets.Set[string]` values and consumes them through
`sets.List`, which returns the members sorted lexicographically.  Sets are
modelled as duplicate-free lists; `setSorted` models `sets.List`. -/

/-- Lexicographic comparison of character lists by code point, mirroring Go's
byte-wise `<` on the ASCII zone names used here. -/
def charListLt : List Char → List Char → Bool
  | [], [] => false
  | [], _ :: _ => true
  | _ :: _, [] => false
  | a :: as, b :: bs =>
    if a.toNat < b.toNat then true
    else if b.toNat < a.toNat then false
    else charListLt as bs

def strLt (a b : String) : Bool := charListLt a.data b.data

def insertSorted (x : String) : List String → List String
  | [] => [x]
  | y :: ys => if strLt x y then x :: y :: ys else y :: insertSorted x ys

def sortStrings (l : List String) : List String := l.foldr insertSorted []

/-- Model of `sets.List`: the members of the set, sorted. -/
def setSorted (l : List String) : List String := sortStrings l.dedup

/-- Model of `sets.Set.Insert` (and of building a union by inserting all
members of another set): append each element not already present. -/
def setInsert (s : List String) (xs : List String) : List String :=
  xs.foldl (fun acc z => if z ∈ acc then acc else acc ++ [z]) s

theorem mem_insertSorted {z x : String} : ∀ {l : List String},
    z ∈ insertSorted x l ↔ z = x ∨ z ∈ l := by
  intro l
  induction l with
  | nil => simp [insertSorted]
  | cons y ys ih =>
    simp only [insertSorted]
    by_cases h : strLt x y
    · rw [if_pos h]
      simp
    · rw [if_neg h]
      simp only [List.mem_cons, ih]
      tauto

theorem mem_sortStrings {z : String} : ∀ {l : List String},
    z ∈ sortStrings l ↔ z ∈ l := by
  intro l
  induction l with
  | nil => simp [sortStrings]
  | cons y ys ih =>
    simp only [sortStrings, List.foldr] at ih ⊢
    rw [mem_insertSorted, ih, List.mem_cons]

theorem mem_setSorted {z : String} {l : List String} :
    z ∈ setSorted l ↔ z ∈ l := by
  rw [setSorted, mem_sortStrings, List.mem_dedup]

theorem mem_setInsert {z : String} : ∀ {xs s : List String},
    z ∈ setInsert s xs ↔ z ∈ s ∨ z ∈ xs := by
  intro xs
  induction xs with
  | nil => simp [setInsert]
  | cons x rest ih =>
    intro s
    simp only [setInsert, List.foldl] at ih ⊢
    by_cases h : x ∈ s
    · rw [if_pos h, ih]
      simp only [List.mem_cons]
      constructor
      · tauto
      · rintro (hz | rfl | hz) <;> tauto
    · rw [if_neg h, ih]
      simp only [List.mem_append, List.mem_cons, List.mem_singleton]
      tauto

/-! ## Data model of the CAPI network specification (`zones.go`) -/

/-- `capa.SubnetSpec`, restricted to the fields the planner writes.  The Go
code stores the CIDR as its string rendering; the block is kept structured
here, with `CIDRv4.render` recovering the exact string. -/
structure SubnetSpec where
  ID : String
  CidrBlock : CIDRv4
  AvailabilityZone : String
  IsPublic : Bool
deriving DecidableEq, Repr

/-- `capa.VPCSpec`, restricted to the fields the planner writes. -/
structure VPCSpec where
  ID : String := ""
  CidrBlock : Option CIDRv4 := none
deriving DecidableEq, Repr

/-- `capa.NetworkSpec`: the caller-supplied descriptor the planner writes. -/
structure NetworkSpec where
  VPC : VPCSpec
  Subnets : List SubnetSpec
deriving DecidableEq, Repr

def emptyNet : NetworkSpec := { VPC := {}, Subnets := [] }

/-- The stage-identifying errors of `setSubnetsManagedVPC`, one per wrapped
error return in the Go source. -/
inductive PlanErr where
  | privateSplit
  | publicSplit
  | privateGuard
  | publicGuard
  | edgeSplit
  | edgePrivGuard
  | edgePubGuard
deriving DecidableEq, Repr

/-- A synthesized subnet record, with the ID format
`<infra-id>-subnet-<public|private>-<zone>` of the Go `fmt.Sprintf` calls. -/
def mkSubnet (infra zone : String) (c : CIDRv4) (pub : Bool) : SubnetSpec :=
  { ID := infra ++ "-subnet-" ++ (if pub then "public" else "private") ++ "-" ++ zone,
    CidrBlock := c, AvailabilityZone := zone, IsPublic := pub }

def d0 : CIDRv4 := ⟨0, 0⟩

/-- The regular-zone loop of `setSubnetsManagedVPC` (zones.go lines 256-271):
for each availability zone, append its private subnet and, when publishing
externally, its public subnet. -/
def regularLoop (infra : String) (ext : Bool) (privs pubs : List CIDRv4) :
    Nat → List String → List SubnetSpec
  | _, [] => []
  | i, z :: zs =>
    mkSubnet infra z (privs.getD i d0) false ::
      ((if ext then [mkSubnet infra z (pubs.getD i d0) true] else []) ++
        regularLoop infra ext privs pubs (i + 1) zs)

/-- The edge-zone loop of `setSubnetsManagedVPC` (zones.go lines 298-313):
for each edge zone, append its private subnet from block `i` and, when
publishing externally, its public subnet from block `numEdgeZones + i`. -/
def edgeLoop (infra : String) (ext : Bool) (numEdgeZones : Nat)
    (ecs : List CIDRv4) : Nat → List String → List SubnetSpec
  | _, [] => []
  | i, z :: zs =>
    mkSubnet infra z (ecs.getD i d0) false ::
      ((if ext then [mkSubnet infra z (ecs.getD (numEdgeZones + i) d0) true] else []) ++
        edgeLoop infra ext numEdgeZones ecs (i + 1) zs)

/-- The core of `setSubnetsManagedVPC` after zone extraction (zones.go lines
203-316).  It mirrors the Go flow exactly: the VPC descriptor is overwritten
first, the base CIDR is split into `|az| + 1 (+1 if external) (+1 if edge)`
blocks, block `|az|` is the public super-block and block `|az| + 1` the edge
super-block, the regular-zone subnets are appended, and only then is the edge
super-block split and consumed. -/
def managedCore (az edgeZ : List String) (ext : Bool) (base : CIDRv4)
    (infra : String) (net0 : NetworkSpec) : NetworkSpec × Option PlanErr :=
  let net1 : NetworkSpec := { net0 with VPC := { ID := "", CidrBlock := some base } }
  let numSubnets := az.length + 1 + (if ext then 1 else 0) +
    (if 0 < edgeZ.length then 1 else 0)
  match SplitIntoSubnetsIPv4 base numSubnets with
  | Except.error _ => (net1, some PlanErr.privateSplit)
  | Except.ok privateCIDRs =>
    let publicCIDR := privateCIDRs.getD az.length d0
    let edgeCIDR := privateCIDRs.getD (az.length + 1) d0
    match (if ext then SplitIntoSubnetsIPv4 publicCIDR az.length
           else Except.ok []) with
    | Except.error _ => (net1, some PlanErr.publicSplit)
    | Except.ok publicCIDRs =>
      if privateCIDRs.length < az.length then (net1, some PlanErr.privateGuard)
      else if ext ∧ publicCIDRs.length < az.length then
        (net1, some PlanErr.publicGuard)
      else
        let net2 : NetworkSpec := { net1 with
          Subnets := net1.Subnets ++ regularLoop infra ext privateCIDRs publicCIDRs 0 az }
        if 0 < edgeZ.length then
          let numEdgeSubnets := (if ext then edgeZ.length * 2 else edgeZ.length) + 1
          match SplitIntoSubnetsIPv4 edgeCIDR numEdgeSubnets with
          | Except.error _ => (net2, some PlanErr.edgeSplit)
          | Except.ok edgeCIDRs =>
            if edgeCIDRs.length < edgeZ.length then
              (net2, some PlanErr.edgePrivGuard)
            else if ext ∧ edgeCIDRs.length < edgeZ.length * 2 then
              (net2, some PlanErr.edgePubGuard)
            else
              let edgeSubnets := edgeLoop infra ext edgeZ.length edgeCIDRs 0 edgeZ
              ({ net2 with Subnets := net2.Subnets ++ edgeSubnets }, none)
        else (net2, none)

/-! ## Zone extraction from the install configuration (`zones.go`) -/

/-- The pool-name constants of `pkg/types`. -/
def roleControlPlane : String := "master"
def roleCompute : String := "worker"
def roleEdge : String := "edge"

/-- The AWS platform section of a machine pool: the declared zone names. -/
structure AWSMachinePool where
  Zones : List String
deriving DecidableEq, Repr

/-- A machine pool of the install config (name plus optional AWS platform). -/
structure MachinePool where
  Name : String
  PlatformAWS : Option AWSMachinePool
deriving DecidableEq, Repr

/-- `types.PublishingStrategy`. -/
inductive PublishStrategy where
  | external
  | internal
deriving DecidableEq, Repr

/-- The slice of the install configuration consumed by zone extraction and
the managed planner. -/
structure InstallCfg where
  Publish : PublishStrategy
  ControlPlane : Option MachinePool
  Compute : List MachinePool
  DefaultMachinePlatform : Option AWSMachinePool
deriving DecidableEq, Repr

/-- The `zonesCAPI` bookkeeping record of `zones.go`. -/
structure zonesCAPI where
  controlPlaneZones : List String
  computeZones : List String
  edgeZones : List String
deriving DecidableEq, Repr

/-- `zonesCAPI.AvailabilityZones`: sorted union of the control-plane and
compute zone sets. -/
def zonesCAPI.AvailabilityZones (zo : zonesCAPI) : List String :=
  setSorted (setInsert zo.controlPlaneZones zo.computeZones)

/-- `zonesCAPI.EdgeZones`: sorted list of the edge zone set. -/
def zonesCAPI.EdgeZones (zo : zonesCAPI) : List String :=
  setSorted zo.edgeZones

/-- `zonesCAPI.SetAvailabilityZones`: insert into the pool's zone set,
matching on the pool-role name. -/
def zonesCAPI.setAvailabilityZones (zo : zonesCAPI) (pool : String)
    (zones : List String) : zonesCAPI :=
  if pool = roleControlPlane then
    { zo with controlPlaneZones := setInsert zo.controlPlaneZones zones }
  else if pool = roleCompute then
    { zo with computeZones := setInsert zo.computeZones zones }
  else zo

/-- `zonesCAPI.SetDefaultConfigZones`: when the pool has no zones yet, fall
back to the platform default zones, else to the region's zones. -/
def zonesCAPI.setDefaultConfigZones (zo : zonesCAPI) (pool : String)
    (defConfig defRegion : List String) : zonesCAPI :=
  if pool = roleControlPlane then
    let zones :=
      if zo.controlPlaneZones.length = 0 ∧ 0 < defConfig.length then defConfig
      else if zo.controlPlaneZones.length = 0 then defRegion
      else []
    { zo with controlPlaneZones := setInsert zo.controlPlaneZones zones }
  else if pool = roleCompute then
    let zones :=
      if zo.computeZones.length = 0 ∧ 0 < defConfig.length then defConfig
      else if zo.computeZones.length = 0 then defRegion
      else []
    { zo with computeZones := setInsert zo.computeZones zones }
  else zo

/-- One iteration of the compute-pool loop of `extractZonesFromInstallConfig`
(zones.go lines 338-352). -/
def extractComputeStep (defaultZones zonesInRegion : List String)
    (zo : zonesCAPI) (pool : MachinePool) : zonesCAPI :=
  match pool.PlatformAWS with
  | none => zo
  | some aw =>
    let zo1 := if 0 < aw.Zones.length
      then zo.setAvailabilityZones pool.Name aw.Zones else zo
    if pool.Name = roleEdge then
      { zo1 with edgeZones := setInsert zo1.edgeZones aw.Zones }
    else
      zo1.setDefaultConfigZones roleCompute defaultZones zonesInRegion

/-- `extractZonesFromInstallConfig` (zones.go lines 320-354).  The Go
function's error result is always nil, so the model returns the record
directly. -/
def extractZonesFromInstallConfig (cfg : InstallCfg)
    (zonesInRegion : List String) : zonesCAPI :=
  let defaultZones : List String :=
    match cfg.DefaultMachinePlatform with
    | some p => if 0 < p.Zones.length then p.Zones else []
    | none => []
  let out0 : zonesCAPI := ⟨[], [], []⟩
  let out1 :=
    match cfg.ControlPlane with
    | some cp =>
      match cp.PlatformAWS with
      | some aw => out0.setAvailabilityZones roleControlPlane aw.Zones
      | none => out0
    | none => out0
  let out2 := out1.setDefaultConfigZones roleControlPlane defaultZones zonesInRegion
  cfg.Compute.foldl (extractComputeStep defaultZones zonesInRegion) out2

/-- `setSubnetsManagedVPC` (zones.go lines 197-317): zone extraction followed
by the managed CIDR planning core.  `base` is the install config's machine
network CIDR and `infra` the cluster's infra ID. -/
def setSubnetsManagedVPC (cfg : InstallCfg) (zonesInRegion : List String)
    (base : CIDRv4) (infra : String) (net0 : NetworkSpec) :
    NetworkSpec × Option PlanErr :=
  let zo := extractZonesFromInstallConfig cfg zonesInRegion
  managedCore zo.AvailabilityZones zo.EdgeZones
    (cfg.Publish = PublishStrategy.external) base infra net0

/-! ## The BYO-VPC path (`zones.go` lines 151-185) -/

/-- The zone metadata attached to a subnet as seen by `zones.go`
(`subnet.Zone.Name`). -/
structure ZoneInfo where
  Name : String
deriving DecidableEq, Repr

/-- An already-existing subnet as reported by the metadata collaborator
(`aws.Subnet` as consumed by `setSubnetsBYOVPC`). -/
structure AWSSubnet where
  ID : String
  CIDR : CIDRv4
  Zone : ZoneInfo
  Public : Bool
deriving DecidableEq, Repr

/-- The `subnetsInput` record of `zones.go`. -/
structure subnetsInput where
  vpc : String
  privateSubnets : List AWSSubnet
  publicSubnets : List AWSSubnet
  edgeSubnets : List AWSSubnet
deriving DecidableEq, Repr

/-- The field-for-field copy performed by each loop body of
`setSubnetsBYOVPC`. -/
def byoCopy (s : AWSSubnet) : SubnetSpec :=
  { ID := s.ID, CidrBlock := s.CIDR, AvailabilityZone := s.Zone.Name,
    IsPublic := s.Public }

/-- `setSubnetsBYOVPC`: set the VPC descriptor to the existing VPC ID and
append every private, public and edge subnet verbatim.  The Go function
always returns nil. -/
def setSubnetsBYOVPC (s : subnetsInput) (net0 : NetworkSpec) :
    NetworkSpec × Option PlanErr :=
  let net1 : NetworkSpec := { net0 with VPC := { ID := s.vpc, CidrBlock := none } }
  let appended := s.privateSubnets.map byoCopy ++ s.publicSubnets.map byoCopy
    ++ s.edgeSubnets.map byoCopy
  ({ net1 with Subnets := net1.Subnets ++ appended }, none)

/-! ## The subnet classifier (`pkg/asset/installconfig/aws/subnet.go`) -/

/-- `aws.StringValue`: dereference with `""` for nil. -/
def stringValue : Option String → String
  | some s => s
  | none => ""

/-- `aws.BoolValue`: dereference with `false` for nil. -/
def boolValue : Option Bool → Bool
  | some b => b
  | none => false

/-- An `ec2.RouteTableAssociation`, restricted to the consumed fields. -/
structure RTAssoc where
  SubnetId : Option String
  Main : Option Bool
deriving DecidableEq, Repr

/-- An `ec2.Route`, restricted to the consumed field. -/
structure RTRoute where
  GatewayId : Option String
deriving DecidableEq, Repr

/-- An `ec2.RouteTable`, restricted to the consumed fields. -/
structure RouteTable where
  RouteTableId : Option String
  Associations : List RTAssoc
  Routes : List RTRoute
deriving DecidableEq, Repr

/-- Whether a route table carries an explicit association with the subnet. -/
def explicitFor (subnetID : String) (t : RouteTable) : Bool :=
  t.Associations.any fun a => stringValue a.SubnetId == subnetID

/-- Whether a route table carries an association marked as the VPC's main
table. -/
def isMainTable (t : RouteTable) : Bool :=
  t.Associations.any fun a => boolValue a.Main

/-- Character-list prefix test (kernel-reducible). -/
def charListIsPrefix : List Char → List Char → Bool
  | [], _ => true
  | _ :: _, [] => false
  | a :: as, b :: bs => if a = b then charListIsPrefix as bs else false

/-- Model of Go's `strings.HasPrefix`. -/
def strHasPrefix (p s : String) : Bool := charListIsPrefix p.data s.data

/-- Whether a route table has a route whose gateway identifier starts with
`igw` (an internet gateway). -/
def hasIgwRoute (t : RouteTable) : Bool :=
  t.Routes.any fun r => strHasPrefix "igw" (stringValue r.GatewayId)

/-- The first loop of `isSubnetPublic`: the Go `break` leaves the inner
association loop only, so a later matching table overwrites an earlier one —
the loop keeps the last table with a matching association. -/
def findAssociatedTable (rt : List RouteTable) (subnetID : String) :
    Option RouteTable :=
  rt.foldl (fun acc t => if explicitFor subnetID t then some t else acc) none

/-- The fallback loop of `isSubnetPublic`: the last table with an association
marked Main. -/
def findMainTable (rt : List RouteTable) : Option RouteTable :=
  rt.foldl (fun acc t => if isMainTable t then some t else acc) none

/-- The errors of the subnet-gathering path of `subnet.go`. -/
inductive SubnetErr where
  | noARN (id : String)
  | noVPC (id : String)
  | noAZ (id : String)
  | vpcMismatch (id vpc baseID baseVPC : String)
  | notFoundMeta (id : String)
  | routingTableNotFound (id : String)
  | localZonePrivate (id zone ztype : String)
deriving DecidableEq, Repr

/-- `isSubnetPublic` (subnet.go lines 207-250): resolve the route table
explicitly associated with the subnet, fall back to the VPC's main table, and
report public exactly when the resolved table has an internet-gateway route. -/
def isSubnetPublic (rt : List RouteTable) (subnetID : String) :
    Except SubnetErr Bool :=
  match findAssociatedTable rt subnetID with
  | some t => Except.ok (hasIgwRoute t)
  | none =>
    match findMainTable rt with
    | some t => Except.ok (hasIgwRoute t)
    | none => Except.error (SubnetErr.routingTableNotFound subnetID)

/-- `aws.Subnet` of `subnet.go`: the metadata record built per subnet. -/
structure ICSubnet where
  ARN : String
  Zone : String
  CIDR : String
  ZoneType : String
  ZoneGroup : String
  Public : Bool
deriving DecidableEq, Repr

/-- `SubnetsGroups` of `subnet.go`: the classified output groups.  Go maps
keyed by subnet ID are modelled as association lists. -/
structure SubnetsGroups where
  Public : List (String × ICSubnet)
  Private : List (String × ICSubnet)
  Edge : List (String × ICSubnet)
  VPC : String
deriving DecidableEq, Repr

/-- Lookup in the `metas` map built by the describe-subnets loop. -/
def lookupMeta (metas : List (String × ICSubnet)) (id : String) :
    Option ICSubnet :=
  (metas.find? fun p => p.1 == id).map Prod.snd

/-- `awstypes.AvailabilityZoneTypeLocal`. -/
def localZoneType : String := "local-zone"

/-- The classification loop of `subnets` (subnet.go lines 157-202): per
subnet, resolve publicness from the route tables, attach the zone type and
group, fail on a private Local Zone subnet, and file the subnet into the
edge, public or private group.  `azType`/`azGroup` give each zone's
attributes, mirroring the `availabilityZones` map (which the Go code indexes
unconditionally).  Any error aborts the whole run. -/
def classifyLoop (metas : List (String × ICSubnet)) (rt : List RouteTable)
    (azType azGroup : String → String) :
    List String → SubnetsGroups → Except SubnetErr SubnetsGroups
  | [], acc => Except.ok acc
  | id :: rest, acc =>
    match lookupMeta metas id with
    | none => Except.error (SubnetErr.notFoundMeta id)
    | some m =>
      match isSubnetPublic rt id with
      | Except.error e => Except.error e
      | Except.ok isPub =>
        let m1 : ICSubnet :=
          { m with
            Public := isPub,
            ZoneType := azType m.Zone,
            ZoneGroup := azGroup m.Zone }
        if m1.ZoneType = localZoneType then
          if ¬ m1.Public then
            Except.error (SubnetErr.localZonePrivate id m1.Zone m1.ZoneType)
          else
            classifyLoop metas rt azType azGroup rest
              { acc with Edge := acc.Edge ++ [(id, m1)] }
        else if m1.Public then
          classifyLoop metas rt azType azGroup rest
            { acc with Public := acc.Public ++ [(id, m1)] }
        else
          classifyLoop metas rt azType azGroup rest
            { acc with Private := acc.Private ++ [(id, m1)] }

/-- The classification phase of `subnets`, started with empty groups. -/
def classifySubnets (ids : List String) (metas : List (String × ICSubnet))
    (rt : List RouteTable) (azType azGroup : String → String) (vpc : String) :
    Except SubnetErr SubnetsGroups :=
  classifyLoop metas rt azType azGroup ids
    { Public := [], Private := [], Edge := [], VPC := vpc }

/-! ## The describe-subnets gathering loop (`subnet.go` lines 79-122) -/

/-- An `ec2.Subnet` as returned by DescribeSubnets, restricted to the
consumed fields (all pointers in the AWS SDK). -/
structure EC2SubnetRec where
  SubnetId : Option String
  SubnetArn : Option String
  VpcId : Option String
  AvailabilityZone : Option String
  CidrBlock : Option String
deriving DecidableEq, Repr

/-- The metadata record stored for a described subnet.  The Go code
dereferences `CidrBlock` unconditionally; a nil `CidrBlock` would panic there
and is outside this model, which substitutes `""`. -/
def mkMeta (s : EC2SubnetRec) : ICSubnet :=
  { ARN := stringValue s.SubnetArn, Zone := stringValue s.AvailabilityZone,
    CIDR := stringValue s.CidrBlock, ZoneType := "", ZoneGroup := "",
    Public := false }

/-- The describe-subnets page callback of `subnets` (subnet.go lines 82-115):
skip records without an ID, fail on missing ARN/VPC/AZ, adopt the first
subnet's VPC as the comparison baseline and fail on any later subnet whose
VPC differs. -/
def gatherLoop : List EC2SubnetRec → String → String →
    List (String × ICSubnet) → Except SubnetErr (String × List (String × ICSubnet))
  | [], vpc, _, metas => Except.ok (vpc, metas)
  | s :: rest, vpc, vpcFrom, metas =>
    match s.SubnetId with
    | none => gatherLoop rest vpc vpcFrom metas
    | some sid =>
      if s.SubnetArn.isNone then Except.error (SubnetErr.noARN sid)
      else if s.VpcId.isNone then Except.error (SubnetErr.noVPC sid)
      else if s.AvailabilityZone.isNone then Except.error (SubnetErr.noAZ sid)
      else if vpc = "" then
        gatherLoop rest (stringValue s.VpcId) sid (metas ++ [(sid, mkMeta s)])
      else if stringValue s.VpcId ≠ vpc then
        Except.error (SubnetErr.vpcMismatch sid (stringValue s.VpcId) vpcFrom vpc)
      else
        gatherLoop rest vpc vpcFrom (metas ++ [(sid, mkMeta s)])

/-- The gathering phase of `subnets`, started with an empty baseline. -/
def gatherSubnetMetas (subs : List EC2SubnetRec) :
    Except SubnetErr (String × List (String × ICSubnet)) :=
  gatherLoop subs "" "" []

/-! ## Structural characterization of the managed planner -/

theorem managedCore_success {az edgeZ : List String} {ext : Bool} {base : CIDRv4}
    {infra : String} {net0 st : NetworkSpec}
    (h : managedCore az edgeZ ext base infra net0 = (st, none)) :
    ∃ privs pubs,
      SplitIntoSubnetsIPv4 base (az.length + 1 + (if ext then 1 else 0) +
        (if 0 < edgeZ.length then 1 else 0)) = Except.ok privs ∧
      (if ext then SplitIntoSubnetsIPv4 (privs.getD az.length d0) az.length =
         Except.ok pubs else pubs = []) ∧
      st.VPC = ⟨"", some base⟩ ∧
      ((edgeZ.length = 0 ∧
         st.Subnets = net0.Subnets ++ regularLoop infra ext privs pubs 0 az) ∨
       (0 < edgeZ.length ∧ ∃ ecs,
         SplitIntoSubnetsIPv4 (privs.getD (az.length + 1) d0)
           ((if ext then edgeZ.length * 2 else edgeZ.length) + 1) = Except.ok ecs ∧
         st.Subnets = net0.Subnets ++ regularLoop infra ext privs pubs 0 az ++
           edgeLoop infra ext edgeZ.length ecs 0 edgeZ)) := by
  unfold managedCore at h
  simp only [] at h
  cases hsplit : SplitIntoSubnetsIPv4 base (az.length + 1 + (if ext then 1 else 0) +
      (if 0 < edgeZ.length then 1 else 0)) with
  | error e => rw [hsplit] at h; simp at h
  | ok privs =>
    rw [hsplit] at h
    simp only [] at h
    cases hpub : (if ext then SplitIntoSubnetsIPv4 (privs.getD az.length d0) az.length
        else Except.ok ([] : List CIDRv4)) with
    | error e => rw [hpub] at h; simp at h
    | ok pubs =>
      rw [hpub] at h
      simp only [] at h
      by_cases hg1 : privs.length < az.length
      · rw [if_pos hg1] at h; simp at h
      · rw [if_neg hg1] at h
        by_cases hg2 : ext = true ∧ pubs.length < az.length
        · rw [if_pos hg2] at h; simp at h
        · rw [if_neg hg2] at h
          by_cases hedge : 0 < edgeZ.length
          · rw [if_pos hedge] at h
            cases hesplit : SplitIntoSubnetsIPv4 (privs.getD (az.length + 1) d0)
                ((if ext then edgeZ.length * 2 else edgeZ.length) + 1) with
            | error e => rw [hesplit] at h; simp at h
            | ok ecs =>
              rw [hesplit] at h
              simp only [] at h
              by_cases he1 : ecs.length < edgeZ.length
              · rw [if_pos he1] at h; simp at h
              · rw [if_neg he1] at h
                by_cases he2 : ext = true ∧ ecs.length < edgeZ.length * 2
                · rw [if_pos he2] at h; simp at h
                · rw [if_neg he2] at h
                  simp only [Prod.mk.injEq] at h
                  obtain ⟨h1, -⟩ := h
                  refine ⟨privs, pubs, rfl, ?_, ?_, Or.inr ⟨hedge, ecs, hesplit, ?_⟩⟩
                  · by_cases hx : ext
                    · rw [if_pos hx]; rw [if_pos hx] at hpub; exact hpub
                    · rw [if_neg hx]; rw [if_neg hx] at hpub
                      exact (Except.ok.inj hpub).symm
                  · rw [← h1]
                  · rw [← h1]
          · rw [if_neg hedge] at h
            simp only [Prod.mk.injEq] at h
            obtain ⟨h1, -⟩ := h
            refine ⟨privs, pubs, rfl, ?_, ?_, Or.inl ⟨by omega, ?_⟩⟩
            · by_cases hx : ext
              · rw [if_pos hx]; rw [if_pos hx] at hpub; exact hpub
              · rw [if_neg hx]; rw [if_neg hx] at hpub
                exact (Except.ok.inj hpub).symm
            · rw [← h1]
            · rw [← h1]

theorem managedCore_error {az edgeZ : List String} {ext : Bool} {base : CIDRv4}
    {infra : String} {net0 st : NetworkSpec} {e : PlanErr}
    (h : managedCore az edgeZ ext base infra net0 = (st, some e)) :
    st.VPC = ⟨"", some base⟩ ∧
    ((st.Subnets = net0.Subnets ∧
       (e = PlanErr.privateSplit ∨ e = PlanErr.publicSplit ∨
        e = PlanErr.privateGuard ∨ e = PlanErr.publicGuard)) ∨
     ((e = PlanErr.edgeSplit ∨ e = PlanErr.edgePrivGuard ∨
       e = PlanErr.edgePubGuard) ∧ 0 < edgeZ.length ∧
      ∃ privs pubs,
        SplitIntoSubnetsIPv4 base (az.length + 1 + (if ext then 1 else 0) +
          (if 0 < edgeZ.length then 1 else 0)) = Except.ok privs ∧
        (if ext then SplitIntoSubnetsIPv4 (privs.getD az.length d0) az.length =
           Except.ok pubs else pubs = []) ∧
        st.Subnets = net0.Subnets ++ regularLoop infra ext privs pubs 0 az)) := by
  unfold managedCore at h
  simp only [] at h
  cases hsplit : SplitIntoSubnetsIPv4 base (az.length + 1 + (if ext then 1 else 0) +
      (if 0 < edgeZ.length then 1 else 0)) with
  | error err =>
    rw [hsplit] at h
    simp only [Prod.mk.injEq, Option.some.injEq] at h
    obtain ⟨h1, h2⟩ := h
    exact ⟨by rw [← h1], Or.inl ⟨by rw [← h1], Or.inl h2.symm⟩⟩
  | ok privs =>
    rw [hsplit] at h
    simp only [] at h
    cases hpub : (if ext then SplitIntoSubnetsIPv4 (privs.getD az.length d0) az.length
        else Except.ok ([] : List CIDRv4)) with
    | error err =>
      rw [hpub] at h
      simp only [Prod.mk.injEq, Option.some.injEq] at h
      obtain ⟨h1, h2⟩ := h
      exact ⟨by rw [← h1], Or.inl ⟨by rw [← h1], Or.inr (Or.inl h2.symm)⟩⟩
    | ok pubs =>
      rw [hpub] at h
      simp only [] at h
      by_cases hg1 : privs.length < az.length
      · rw [if_pos hg1] at h
        simp only [Prod.mk.injEq, Option.some.injEq] at h
        obtain ⟨h1, h2⟩ := h
        exact ⟨by rw [← h1], Or.inl ⟨by rw [← h1], Or.inr (Or.inr (Or.inl h2.symm))⟩⟩
      · rw [if_neg hg1] at h
        by_cases hg2 : ext = true ∧ pubs.length < az.length
        · rw [if_pos hg2] at h
          simp only [Prod.mk.injEq, Option.some.injEq] at h
          obtain ⟨h1, h2⟩ := h
          exact ⟨by rw [← h1], Or.inl ⟨by rw [← h1], Or.inr (Or.inr (Or.inr h2.symm))⟩⟩
        · rw [if_neg hg2] at h
          have hpub' : (if ext then SplitIntoSubnetsIPv4 (privs.getD az.length d0) az.length =
              Except.ok pubs else pubs = ([] : List CIDRv4)) := by
            by_cases hx : ext
            · rw [if_pos hx]; rw [if_pos hx] at hpub; exact hpub
            · rw [if_neg hx]; rw [if_neg hx] at hpub
              exact (Except.ok.inj hpub).symm
          by_cases hedge : 0 < edgeZ.length
          · rw [if_pos hedge] at h
            cases hesplit : SplitIntoSubnetsIPv4 (privs.getD (az.length + 1) d0)
                ((if ext then edgeZ.length * 2 else edgeZ.length) + 1) with
            | error err =>
              rw [hesplit] at h
              simp only [Prod.mk.injEq, Option.some.injEq] at h
              obtain ⟨h1, h2⟩ := h
              refine ⟨by rw [← h1], Or.inr ⟨Or.inl h2.symm, hedge, privs, pubs, rfl, hpub', ?_⟩⟩
              rw [← h1]
            | ok ecs =>
              rw [hesplit] at h
              simp only [] at h
              by_cases he1 : ecs.length < edgeZ.length
              · rw [if_pos he1] at h
                simp only [Prod.mk.injEq, Option.some.injEq] at h
                obtain ⟨h1, h2⟩ := h
                refine ⟨by rw [← h1], Or.inr ⟨Or.inr (Or.inl h2.symm), hedge, privs, pubs, rfl, hpub', ?_⟩⟩
                rw [← h1]
              · rw [if_neg he1] at h
                by_cases he2 : ext = true ∧ ecs.length < edgeZ.length * 2
                · rw [if_pos he2] at h
                  simp only [Prod.mk.injEq, Option.some.injEq] at h
                  obtain ⟨h1, h2⟩ := h
                  refine ⟨by rw [← h1], Or.inr ⟨Or.inr (Or.inr h2.symm), hedge, privs, pubs, rfl, hpub', ?_⟩⟩
                  rw [← h1]
                · rw [if_neg he2] at h
                  simp at h
          · rw [if_neg hedge] at h
            simp at h

/-! ## Loop lemmas and plan-level CIDR properties -/

theorem regularLoop_mem_priv {infra : String} {ext : Bool}
    {privs pubs : List CIDRv4} :
    ∀ (zs : List String) (i j : Nat) (hj : j < zs.length),
      mkSubnet infra (zs.get ⟨j, hj⟩) (privs.getD (i + j) d0) false ∈
        regularLoop infra ext privs pubs i zs := by
  intro zs
  induction zs with
  | nil => intro i j hj; simp at hj
  | cons z zs ih =>
    intro i j hj
    cases j with
    | zero =>
      simp [regularLoop]
    | succ j =>
      simp only [regularLoop, List.get, List.mem_cons]
      right
      rw [List.mem_append]
      right
      have := ih (i + 1) j (by simpa using Nat.lt_of_succ_lt_succ hj)
      have harith : i + 1 + j = i + (j + 1) := by omega
      rw [harith] at this
      exact this

theorem regularLoop_mem_pub {infra : String}
    {privs pubs : List CIDRv4} :
    ∀ (zs : List String) (i j : Nat) (hj : j < zs.length),
      mkSubnet infra (zs.get ⟨j, hj⟩) (pubs.getD (i + j) d0) true ∈
        regularLoop infra true privs pubs i zs := by
  intro zs
  induction zs with
  | nil => intro i j hj; simp at hj
  | cons z zs ih =>
    intro i j hj
    cases j with
    | zero =>
      simp [regularLoop]
    | succ j =>
      simp only [regularLoop, List.get, List.mem_cons]
      right
      rw [List.mem_append]
      right
      have := ih (i + 1) j (by simpa using Nat.lt_of_succ_lt_succ hj)
      have harith : i + 1 + j = i + (j + 1) := by omega
      rw [harith] at this
      exact this

theorem regularLoop_subset {infra : String} {ext : Bool}
    {privs pubs : List CIDRv4} :
    ∀ (zs : List String) (i : Nat) (s : SubnetSpec),
      s ∈ regularLoop infra ext privs pubs i zs →
      ∃ j, i ≤ j ∧ j < i + zs.length ∧
        ((s.CidrBlock = privs.getD j d0 ∧ s.IsPublic = false) ∨
         (ext = true ∧ s.CidrBlock = pubs.getD j d0 ∧ s.IsPublic = true)) := by
  intro zs
  induction zs with
  | nil => intro i s hs; simp [regularLoop] at hs
  | cons z zs ih =>
    intro i s hs
    simp only [regularLoop, List.mem_cons, List.mem_append] at hs
    rcases hs with rfl | hs
    · refine ⟨i, Nat.le_refl i, ?_, Or.inl ⟨rfl, rfl⟩⟩
      simp only [List.length_cons]
      omega
    · rcases hs with hpub | hrest
      · by_cases hx : ext
        · rw [if_pos hx] at hpub
          simp only [List.mem_singleton] at hpub
          subst hpub
          refine ⟨i, Nat.le_refl i, ?_, Or.inr ⟨hx, rfl, rfl⟩⟩
          simp only [List.length_cons]
          omega
        · rw [if_neg hx] at hpub
          simp at hpub
      · obtain ⟨j, hj1, hj2, hj3⟩ := ih (i + 1) s hrest
        refine ⟨j, by omega, ?_, hj3⟩
        simp only [List.length_cons]
        omega

theorem getD_drop (l : List CIDRv4) (n j : Nat) :
    (l.drop n).getD j d0 = l.getD (n + j) d0 := by
  rw [List.getD_eq_getElem?_getD, List.getD_eq_getElem?_getD]
  rw [List.getElem?_drop]

theorem edgeLoop_eq_regularLoop {infra : String} {ext : Bool} {n : Nat}
    {ecs : List CIDRv4} :
    ∀ (zs : List String) (i : Nat),
      edgeLoop infra ext n ecs i zs =
        regularLoop infra ext ecs (ecs.drop n) i zs := by
  intro zs
  induction zs with
  | nil => intro i; simp [edgeLoop, regularLoop]
  | cons z zs ih =>
    intro i
    simp only [edgeLoop, regularLoop, ih, getD_drop]

theorem regularLoop_pairwise {infra : String} {ext : Bool}
    {privs pubs : List CIDRv4} {m : Nat}
    (hPP : ∀ j k, j < m → k < m → j ≠ k →
      cidrDisjoint (privs.getD j d0) (privs.getD k d0))
    (hQQ : ext = true → ∀ j k, j < m → k < m → j ≠ k →
      cidrDisjoint (pubs.getD j d0) (pubs.getD k d0))
    (hPQ : ext = true → ∀ j k, j < m → k < m →
      cidrDisjoint (privs.getD j d0) (pubs.getD k d0)) :
    ∀ (zs : List String) (i : Nat), i + zs.length ≤ m →
      List.Pairwise (fun a b => cidrDisjoint a.CidrBlock b.CidrBlock)
        (regularLoop infra ext privs pubs i zs) := by
  intro zs
  induction zs with
  | nil => intro i him; simp [regularLoop]
  | cons z zs ih =>
    intro i him
    simp only [List.length_cons] at him
    have him' : i < m := by omega
    simp only [regularLoop]
    by_cases hx : ext
    · subst hx
      rw [if_pos rfl]
      simp only [List.singleton_append]
      constructor
      · -- head (private i) against everything after it
        intro b hb
        simp only [List.mem_cons] at hb
        rcases hb with rfl | hb
        · simpa [mkSubnet] using hPQ rfl i i him' him'
        · obtain ⟨j, hj1, hj2, hj3⟩ := regularLoop_subset zs (i + 1) b hb
          rcases hj3 with ⟨hcb, -⟩ | ⟨-, hcb, -⟩
          · simp only [mkSubnet, hcb]
            exact hPP i j him' (by omega) (by omega)
          · simp only [mkSubnet, hcb]
            exact hPQ rfl i j him' (by omega)
      · constructor
        · -- public i against the rest of the loop
          intro b hb
          obtain ⟨j, hj1, hj2, hj3⟩ := regularLoop_subset zs (i + 1) b hb
          rcases hj3 with ⟨hcb, -⟩ | ⟨-, hcb, -⟩
          · simp only [mkSubnet, hcb]
            exact cidrDisjoint_symm (hPQ rfl j i (by omega) him')
          · simp only [mkSubnet, hcb]
            exact hQQ rfl i j him' (by omega) (by omega)
        · exact ih (i + 1) (by omega)
    · rw [if_neg hx]
      simp only [List.nil_append]
      constructor
      · intro b hb
        obtain ⟨j, hj1, hj2, hj3⟩ := regularLoop_subset zs (i + 1) b hb
        rcases hj3 with ⟨hcb, -⟩ | ⟨hxx, -, -⟩
        · simp only [mkSubnet, hcb]
          exact hPP i j him' (by omega) (by omega)
        · exact absurd hxx hx
      · exact ih (i + 1) (by omega)

theorem cidrSubRange_refl (c : CIDRv4) : cidrSubRange c c := fun _ hx => hx

theorem cidrStrictSubRange_of_subRange {a b c : CIDRv4}
    (hab : cidrSubRange a b) (hbc : cidrStrictSubRange b c) :
    cidrStrictSubRange a c := by
  obtain ⟨hbc1, x, hxc, hxb⟩ := hbc
  exact ⟨cidrSubRange_trans hab hbc1, x, hxc, fun hxa => hxb (hab x hxa)⟩

theorem split_ok_plen_le' {A P n : Nat} {bs : List CIDRv4}
    (h : SplitIntoSubnetsIPv4 ⟨A, P⟩ n = Except.ok bs) :
    P + clog2 n ≤ 32 := split_ok_plen_le h

theorem split_ok_getD' {A P n : Nat} {bs : List CIDRv4}
    (h : SplitIntoSubnetsIPv4 ⟨A, P⟩ n = Except.ok bs) (i : Nat) (hi : i < n)
    (d : CIDRv4) :
    bs.getD i d = ⟨A + i * 2 ^ (32 - (P + clog2 n)), P + clog2 n⟩ :=
  split_ok_getD h i hi d

theorem splitBlock_subRange' {A P n i : Nat}
    (hq : P + clog2 n ≤ 32) (hi : i < n) :
    cidrSubRange ⟨A + i * 2 ^ (32 - (P + clog2 n)), P + clog2 n⟩ ⟨A, P⟩ :=
  @splitBlock_subRange ⟨A, P⟩ n i hq hi

theorem splitBlock_strictSubRange' {A P n i : Nat}
    (hq : P + clog2 n ≤ 32) (hi : i < n) (hlt : P < P + clog2 n) :
    cidrStrictSubRange ⟨A + i * 2 ^ (32 - (P + clog2 n)), P + clog2 n⟩ ⟨A, P⟩ :=
  @splitBlock_strictSubRange ⟨A, P⟩ n i hq hi hlt

theorem managedCore_plan_cidrs {az edgeZ : List String} {ext : Bool}
    {A P : Nat} {infra : String} {st : NetworkSpec}
    (h : managedCore az edgeZ ext ⟨A, P⟩ infra emptyNet = (st, none)) :
    List.Pairwise (fun a b => cidrDisjoint a.CidrBlock b.CidrBlock) st.Subnets ∧
    ∀ s ∈ st.Subnets, cidrStrictSubRange s.CidrBlock ⟨A, P⟩ := by
  obtain ⟨privs, pubs, hsplit, hpub, hvpc, hcases⟩ := managedCore_success h
  set N := az.length + 1 + (if ext = true then 1 else 0) +
    (if 0 < edgeZ.length then 1 else 0) with hN
  have hq1 : P + clog2 N ≤ 32 := split_ok_plen_le' hsplit
  -- the contributions of the two optional slots
  have hExtSlot : ext = true → (if ext = true then 1 else 0) = 1 :=
    fun hx => if_pos hx
  have hEdgeSlot : 0 < edgeZ.length → (if 0 < edgeZ.length then 1 else 0) = 1 :=
    fun hx => if_pos hx
  have hNaz : az.length < N := by omega
  -- facts about the public sub-split (available when publishing externally)
  have hpubS : ext = true →
      SplitIntoSubnetsIPv4 ⟨A + az.length * 2 ^ (32 - (P + clog2 N)),
        P + clog2 N⟩ az.length = Except.ok pubs := by
    intro hx
    rw [if_pos hx] at hpub
    rw [split_ok_getD' hsplit az.length hNaz d0] at hpub
    exact hpub
  have hsubPub : ext = true → ∀ k, k < az.length →
      cidrSubRange (pubs.getD k d0)
        ⟨A + az.length * 2 ^ (32 - (P + clog2 N)), P + clog2 N⟩ := by
    intro hx k hk
    rw [split_ok_getD' (hpubS hx) k hk d0]
    exact splitBlock_subRange' (split_ok_plen_le' (hpubS hx)) hk
  have hPP : ∀ j k, j < az.length → k < az.length → j ≠ k →
      cidrDisjoint (privs.getD j d0) (privs.getD k d0) := by
    intro j k hj hk hjk
    rw [split_ok_getD' hsplit j (by omega) d0, split_ok_getD' hsplit k (by omega) d0]
    exact splitBlock_disjoint hjk
  have hQQ : ext = true → ∀ j k, j < az.length → k < az.length → j ≠ k →
      cidrDisjoint (pubs.getD j d0) (pubs.getD k d0) := by
    intro hx j k hj hk hjk
    rw [split_ok_getD' (hpubS hx) j hj d0, split_ok_getD' (hpubS hx) k hk d0]
    exact splitBlock_disjoint hjk
  have hPQ : ext = true → ∀ j k, j < az.length → k < az.length →
      cidrDisjoint (privs.getD j d0) (pubs.getD k d0) := by
    intro hx j k hj hk
    rw [split_ok_getD' hsplit j (by omega) d0]
    refine cidrDisjoint_of_subRange_right (hsubPub hx k hk) ?_
    exact splitBlock_disjoint (by omega)
  have hregPairwise : List.Pairwise (fun a b => cidrDisjoint a.CidrBlock b.CidrBlock)
      (regularLoop infra ext privs pubs 0 az) :=
    regularLoop_pairwise hPP hQQ hPQ az 0 (by omega)
  have hstrictPriv : ∀ j, j < az.length →
      cidrStrictSubRange (privs.getD j d0) ⟨A, P⟩ := by
    intro j hj
    rw [split_ok_getD' hsplit j (by omega) d0]
    refine splitBlock_strictSubRange' hq1 (by omega) ?_
    have := one_le_clog2 N (by omega)
    omega
  have hstrictPub : ext = true → ∀ k, k < az.length →
      cidrStrictSubRange (pubs.getD k d0) ⟨A, P⟩ := by
    intro hx k hk
    refine cidrStrictSubRange_of_subRange (hsubPub hx k hk) ?_
    refine splitBlock_strictSubRange' hq1 (by omega) ?_
    have h1 := hExtSlot hx
    have := one_le_clog2 N (by omega)
    omega
  have hregStrict : ∀ s ∈ regularLoop infra ext privs pubs 0 az,
      cidrStrictSubRange s.CidrBlock ⟨A, P⟩ := by
    intro s hs
    obtain ⟨j, hj0, hjlen, hcase⟩ := regularLoop_subset az 0 s hs
    rcases hcase with ⟨hcb, -⟩ | ⟨hx, hcb, -⟩
    · rw [hcb]; exact hstrictPriv j (by omega)
    · rw [hcb]; exact hstrictPub hx j (by omega)
  rcases hcases with ⟨hE0, hsub⟩ | ⟨hE1, ecs, hesplit, hsub⟩
  · simp only [emptyNet, List.nil_append] at hsub
    rw [hsub]
    exact ⟨hregPairwise, hregStrict⟩
  · -- edge zones present
    simp only [emptyNet, List.nil_append] at hsub
    have hNaz1 : az.length + 1 < N := by
      have := hEdgeSlot hE1
      omega
    have hesplitS : SplitIntoSubnetsIPv4
        ⟨A + (az.length + 1) * 2 ^ (32 - (P + clog2 N)), P + clog2 N⟩
        ((if ext = true then edgeZ.length * 2 else edgeZ.length) + 1) =
        Except.ok ecs := by
      rw [split_ok_getD' hsplit (az.length + 1) hNaz1 d0] at hesplit
      exact hesplit
    set numEdge := (if ext = true then edgeZ.length * 2 else edgeZ.length) + 1 with hnumEdge
    have hEgeL : edgeZ.length ≤ (if ext = true then edgeZ.length * 2 else edgeZ.length) := by
      by_cases hx : ext = true
      · rw [if_pos hx]; omega
      · rw [if_neg hx]
    have hEdouble : ext = true →
        (if ext = true then edgeZ.length * 2 else edgeZ.length) = edgeZ.length * 2 :=
      fun hx => if_pos hx
    have hq3 : (P + clog2 N) + clog2 numEdge ≤ 32 := split_ok_plen_le' hesplitS
    have hsubEdge : ∀ j, j < numEdge →
        cidrSubRange (ecs.getD j d0)
          ⟨A + (az.length + 1) * 2 ^ (32 - (P + clog2 N)), P + clog2 N⟩ := by
      intro j hj
      rw [split_ok_getD' hesplitS j hj d0]
      exact splitBlock_subRange' hq3 hj
    have hPPe : ∀ j k, j < edgeZ.length → k < edgeZ.length → j ≠ k →
        cidrDisjoint (ecs.getD j d0) (ecs.getD k d0) := by
      intro j k hj hk hjk
      rw [split_ok_getD' hesplitS j (by omega) d0, split_ok_getD' hesplitS k (by omega) d0]
      exact splitBlock_disjoint hjk
    have hQQe : ext = true → ∀ j k, j < edgeZ.length → k < edgeZ.length → j ≠ k →
        cidrDisjoint ((ecs.drop edgeZ.length).getD j d0)
          ((ecs.drop edgeZ.length).getD k d0) := by
      intro hx j k hj hk hjk
      rw [getD_drop, getD_drop]
      have hd := hEdouble hx
      rw [split_ok_getD' hesplitS (edgeZ.length + j) (by omega) d0,
        split_ok_getD' hesplitS (edgeZ.length + k) (by omega) d0]
      exact splitBlock_disjoint (by omega)
    have hPQe : ext = true → ∀ j k, j < edgeZ.length → k < edgeZ.length →
        cidrDisjoint (ecs.getD j d0) ((ecs.drop edgeZ.length).getD k d0) := by
      intro hx j k hj hk
      rw [getD_drop]
      have hd := hEdouble hx
      rw [split_ok_getD' hesplitS j (by omega) d0,
        split_ok_getD' hesplitS (edgeZ.length + k) (by omega) d0]
      exact splitBlock_disjoint (by omega)
    have hedgePairwise : List.Pairwise (fun a b => cidrDisjoint a.CidrBlock b.CidrBlock)
        (edgeLoop infra ext edgeZ.length ecs 0 edgeZ) := by
      rw [edgeLoop_eq_regularLoop]
      exact regularLoop_pairwise hPPe hQQe hPQe edgeZ 0 (by omega)
    have hbSub : ∀ b ∈ edgeLoop infra ext edgeZ.length ecs 0 edgeZ,
        cidrSubRange b.CidrBlock
          ⟨A + (az.length + 1) * 2 ^ (32 - (P + clog2 N)), P + clog2 N⟩ := by
      intro b hb
      rw [edgeLoop_eq_regularLoop] at hb
      obtain ⟨j, hj0, hjlen, hcase⟩ := regularLoop_subset edgeZ 0 b hb
      rcases hcase with ⟨hcb, -⟩ | ⟨hx, hcb, -⟩
      · rw [hcb]; exact hsubEdge j (by omega)
      · rw [hcb, getD_drop]
        have hd := hEdouble hx
        exact hsubEdge (edgeZ.length + j) (by omega)
    have haSub : ∀ a ∈ regularLoop infra ext privs pubs 0 az,
        ∃ u, u ≤ az.length ∧ cidrSubRange a.CidrBlock
          ⟨A + u * 2 ^ (32 - (P + clog2 N)), P + clog2 N⟩ := by
      intro a ha
      obtain ⟨j, hj0, hjlen, hcase⟩ := regularLoop_subset az 0 a ha
      rcases hcase with ⟨hcb, -⟩ | ⟨hx, hcb, -⟩
      · refine ⟨j, by omega, ?_⟩
        rw [hcb, split_ok_getD' hsplit j (by omega) d0]
        exact cidrSubRange_refl _
      · refine ⟨az.length, Nat.le_refl _, ?_⟩
        rw [hcb]
        exact hsubPub hx j (by omega)
    have hcross : ∀ a ∈ regularLoop infra ext privs pubs 0 az,
        ∀ b ∈ edgeLoop infra ext edgeZ.length ecs 0 edgeZ,
        cidrDisjoint a.CidrBlock b.CidrBlock := by
      intro a ha b hb
      obtain ⟨u, hu, hau⟩ := haSub a ha
      refine cidrDisjoint_of_subRange_left hau ?_
      refine cidrDisjoint_of_subRange_right (hbSub b hb) ?_
      exact splitBlock_disjoint (by omega)
    have hedgeStrict : ∀ b ∈ edgeLoop infra ext edgeZ.length ecs 0 edgeZ,
        cidrStrictSubRange b.CidrBlock ⟨A, P⟩ := by
      intro b hb
      refine cidrStrictSubRange_of_subRange (hbSub b hb) ?_
      refine splitBlock_strictSubRange' hq1 (by omega) ?_
      have h1 := hEdgeSlot hE1
      have := one_le_clog2 N (by omega)
      omega
    rw [hsub]
    constructor
    · rw [List.pairwise_append]
      exact ⟨hregPairwise, hedgePairwise, hcross⟩
    · intro s hs
      rw [List.mem_append] at hs
      rcases hs with hs | hs
      · exact hregStrict s hs
      · exact hedgeStrict s hs

/-! ## Claim C1: scenario A -/

/-- The scenario-A install configuration: regular zones a, b, c declared on
both pools, External publish, no edge zones. -/
def cfgScenarioA : InstallCfg :=
  { Publish := PublishStrategy.external,
    ControlPlane := some ⟨"master", some ⟨["a", "b", "c"]⟩⟩,
    Compute := [⟨"worker", some ⟨["a", "b", "c"]⟩⟩],
    DefaultMachinePlatform := none }

/-- C1: with base CIDR `10.0.0.0/16`, regular zones a, b, c, External
publish and no edge zones, the managed planner produces exactly six subnets:
the private subnets `10.0.0.0/19`, `10.0.32.0/19`, `10.0.64.0/19` for zones
a, b, c in sorted order with `IsPublic = false`, and the public subnets
`10.0.96.0/21`, `10.0.104.0/21`, `10.0.112.0/21` for the same zones in the
same order with `IsPublic = true`. -/
theorem claim_C1_scenario_a :
    setSubnetsManagedVPC cfgScenarioA [] ⟨167772160, 16⟩ "infra" emptyNet =
      ({ VPC := { ID := "", CidrBlock := some ⟨167772160, 16⟩ },
         Subnets := [
           mkSubnet "infra" "a" ⟨167772160, 19⟩ false,
           mkSubnet "infra" "a" ⟨167796736, 21⟩ true,
           mkSubnet "infra" "b" ⟨167780352, 19⟩ false,
           mkSubnet "infra" "b" ⟨167798784, 21⟩ true,
           mkSubnet "infra" "c" ⟨167788544, 19⟩ false,
           mkSubnet "infra" "c" ⟨167800832, 21⟩ true] }, none) ∧
    CIDRv4.render ⟨167772160, 19⟩ = "10.0.0.0/19" ∧
    CIDRv4.render ⟨167780352, 19⟩ = "10.0.32.0/19" ∧
    CIDRv4.render ⟨167788544, 19⟩ = "10.0.64.0/19" ∧
    CIDRv4.render ⟨167796736, 21⟩ = "10.0.96.0/21" ∧
    CIDRv4.render ⟨167798784, 21⟩ = "10.0.104.0/21" ∧
    CIDRv4.render ⟨167800832, 21⟩ = "10.0.112.0/21" ∧
    CIDRv4.render ⟨167772160, 16⟩ = "10.0.0.0/16" := by
  decide

/-! ## Claims C2 and C3: structure of the managed plan -/

/-- The property claimed by C3 for one managed planning run: the produced
subnet CIDR blocks are pairwise non-overlapping and each one is a strict
sub-range of the VPC's base CIDR `A/P`. -/
def C3PlanProp (cfg : InstallCfg) (zir : List String) (A P : Nat)
    (infra : String) : Prop :=
  List.Pairwise (fun a b => cidrDisjoint a.CidrBlock b.CidrBlock)
    (setSubnetsManagedVPC cfg zir ⟨A, P⟩ infra emptyNet).1.Subnets ∧
  ∀ s ∈ (setSubnetsManagedVPC cfg zir ⟨A, P⟩ infra emptyNet).1.Subnets,
    cidrStrictSubRange s.CidrBlock ⟨A, P⟩

/-- C3: for every input on which managed planning succeeds, the subnet CIDR
blocks in the produced plan are pairwise non-overlapping and each one is a
strict sub-range of the VPC's base CIDR. -/
theorem claim_C3_disjoint_subranges (cfg : InstallCfg) (zir : List String)
    (A P : Nat) (infra : String)
    (h : (setSubnetsManagedVPC cfg zir ⟨A, P⟩ infra emptyNet).2 = none) :
    C3PlanProp cfg zir A P infra := by
  unfold C3PlanProp
  unfold setSubnetsManagedVPC at h ⊢
  simp only [] at h ⊢
  have h' : managedCore (extractZonesFromInstallConfig cfg zir).AvailabilityZones
      (extractZonesFromInstallConfig cfg zir).EdgeZones
      (decide (cfg.Publish = PublishStrategy.external)) ⟨A, P⟩ infra emptyNet =
      ((managedCore (extractZonesFromInstallConfig cfg zir).AvailabilityZones
        (extractZonesFromInstallConfig cfg zir).EdgeZones
        (decide (cfg.Publish = PublishStrategy.external)) ⟨A, P⟩ infra emptyNet).1,
       none) := by
    rw [← h]
  exact managedCore_plan_cidrs h'

/-- Concrete scenario-A inputs used by the C3 witness. -/
def cfgC3Witness : InstallCfg :=
  { Publish := PublishStrategy.external,
    ControlPlane := some ⟨"master", some ⟨["a", "b", "c"]⟩⟩,
    Compute := [⟨"worker", some ⟨["a", "b", "c"]⟩⟩],
    DefaultMachinePlatform := none }

/-- Witness for C3: the property holds at the concrete scenario-A inputs. -/
theorem claim_C3_witness : C3PlanProp cfgC3Witness [] 167772160 16 "infra" :=
  claim_C3_disjoint_subranges cfgC3Witness [] 167772160 16 "infra" (by decide)

/-- Auxiliary: the zone of every subnet appended by the regular-zone loop is
one of the loop's zones. -/
theorem regularLoop_zones {infra : String} {ext : Bool}
    {privs pubs : List CIDRv4} :
    ∀ (zs : List String) (i : Nat) (s : SubnetSpec),
      s ∈ regularLoop infra ext privs pubs i zs → s.AvailabilityZone ∈ zs := by
  intro zs
  induction zs with
  | nil => intro i s hs; simp [regularLoop] at hs
  | cons z zs ih =>
    intro i s hs
    simp only [regularLoop, List.mem_cons, List.mem_append] at hs
    rcases hs with rfl | hpub | hrest
    · simp [mkSubnet]
    · by_cases hx : ext
      · rw [if_pos hx] at hpub
        simp only [List.mem_singleton] at hpub
        subst hpub
        simp [mkSubnet]
      · rw [if_neg hx] at hpub
        simp at hpub
    · exact List.mem_cons_of_mem z (ih (i + 1) s hrest)

/-- The property claimed by C2: the base CIDR is first split into
`|regularZones| + 1 (+1 if External) (+1 if edge zones exist)` equal blocks
whose first `|regularZones|` become the private subnets one per zone in
order, and the edge super-block is further split into
`(External ? 2 : 1) * |edgeZones| + 1` equal blocks, of which the first
`|edgeZones|` become private edge subnets and, when External, the next
`|edgeZones|` become public edge subnets. -/
def C2PlanShape (cfg : InstallCfg) (zir : List String) (A P : Nat)
    (infra : String) : Prop :=
  let az := (extractZonesFromInstallConfig cfg zir).AvailabilityZones
  let edge := (extractZonesFromInstallConfig cfg zir).EdgeZones
  let ext : Bool := cfg.Publish = PublishStrategy.external
  let subnets := (setSubnetsManagedVPC cfg zir ⟨A, P⟩ infra emptyNet).1.Subnets
  ∃ privs,
    SplitIntoSubnetsIPv4 ⟨A, P⟩
      (az.length + 1 + (if ext then 1 else 0) +
        (if 0 < edge.length then 1 else 0)) = Except.ok privs ∧
    privs.length = az.length + 1 + (if ext then 1 else 0) +
      (if 0 < edge.length then 1 else 0) ∧
    (∀ (j : Nat) (hj : j < az.length),
      mkSubnet infra (az.get ⟨j, hj⟩) (privs.getD j d0) false ∈ subnets) ∧
    (0 < edge.length → ∃ ecs,
      SplitIntoSubnetsIPv4 (privs.getD (az.length + 1) d0)
        ((if ext then 2 else 1) * edge.length + 1) = Except.ok ecs ∧
      ecs.length = (if ext then 2 else 1) * edge.length + 1 ∧
      (∀ (j : Nat) (hj : j < edge.length),
        mkSubnet infra (edge.get ⟨j, hj⟩) (ecs.getD j d0) false ∈ subnets) ∧
      (ext = true → ∀ (j : Nat) (hj : j < edge.length),
        mkSubnet infra (edge.get ⟨j, hj⟩) (ecs.getD (edge.length + j) d0) true ∈
          subnets))

/-- C2: in managed mode, for every input on which planning succeeds, the
base CIDR is first split into `|regularZones| + 1` equal blocks, plus one
more when the publish strategy is External, plus one more when at least one
edge zone exists; and when edge zones exist, the edge super-block is further
split into `(External ? 2 : 1) * |edgeZones| + 1` equal blocks, of which the
first `|edgeZones|` become private edge subnets (one per zone, sorted order)
and, when External, the next `|edgeZones|` become public edge subnets. -/
theorem claim_C2_split_counts (cfg : InstallCfg) (zir : List String)
    (A P : Nat) (infra : String)
    (h : (setSubnetsManagedVPC cfg zir ⟨A, P⟩ infra emptyNet).2 = none) :
    C2PlanShape cfg zir A P infra := by
  unfold C2PlanShape
  unfold setSubnetsManagedVPC at h ⊢
  simp only [] at h ⊢
  have h' : managedCore (extractZonesFromInstallConfig cfg zir).AvailabilityZones
      (extractZonesFromInstallConfig cfg zir).EdgeZones
      (decide (cfg.Publish = PublishStrategy.external)) ⟨A, P⟩ infra emptyNet =
      ((managedCore (extractZonesFromInstallConfig cfg zir).AvailabilityZones
        (extractZonesFromInstallConfig cfg zir).EdgeZones
        (decide (cfg.Publish = PublishStrategy.external)) ⟨A, P⟩ infra emptyNet).1,
       none) := by
    rw [← h]
  obtain ⟨privs, pubs, hsplit, hpub, hvpc, hcases⟩ := managedCore_success h'
  set az := (extractZonesFromInstallConfig cfg zir).AvailabilityZones with haz
  set edge := (extractZonesFromInstallConfig cfg zir).EdgeZones with hedge
  set ext : Bool := decide (cfg.Publish = PublishStrategy.external) with hext
  refine ⟨privs, hsplit, split_ok_length hsplit, ?_, ?_⟩
  · -- private regular subnets, one per zone in order
    intro j hj
    have hmem := @regularLoop_mem_priv infra ext privs pubs az 0 j hj
    rw [Nat.zero_add] at hmem
    rcases hcases with ⟨hE0, hsub⟩ | ⟨hE1, ecs, hesplit, hsub⟩
    · rw [hsub]
      simp only [emptyNet, List.nil_append]
      exact hmem
    · rw [hsub]
      simp only [emptyNet, List.nil_append, List.mem_append]
      exact Or.inl hmem
  · -- the edge-super-block sub-split
    intro hE1
    rcases hcases with ⟨hE0, hsub⟩ | ⟨hE1', ecs, hesplit, hsub⟩
    · omega
    · have hcount : (if ext = true then 2 else 1) * edge.length + 1 =
          (if ext = true then edge.length * 2 else edge.length) + 1 := by
        by_cases hx : ext = true
        · rw [if_pos hx, if_pos hx]; omega
        · rw [if_neg hx, if_neg hx]; omega
      rw [hcount]
      refine ⟨ecs, hesplit, split_ok_length hesplit, ?_, ?_⟩
      · intro j hj
        have hmem := @regularLoop_mem_priv infra ext ecs (ecs.drop edge.length) edge 0 j hj
        rw [Nat.zero_add] at hmem
        rw [hsub]
        simp only [emptyNet, List.nil_append, List.mem_append]
        right
        rw [edgeLoop_eq_regularLoop]
        exact hmem
      · intro hx j hj
        have hmem := @regularLoop_mem_pub infra ecs (ecs.drop edge.length) edge 0 j hj
        rw [Nat.zero_add, getD_drop] at hmem
        rw [hsub]
        simp only [emptyNet, List.nil_append, List.mem_append]
        right
        rw [edgeLoop_eq_regularLoop, hx]
        exact hmem

/-- Concrete scenario-B inputs (one edge zone) used by the C2 witness. -/
def cfgC2Witness : InstallCfg :=
  { Publish := PublishStrategy.external,
    ControlPlane := some ⟨"master", some ⟨["a", "b", "c"]⟩⟩,
    Compute := [⟨"worker", some ⟨["a", "b", "c"]⟩⟩,
               ⟨"edge", some ⟨["edge-a"]⟩⟩],
    DefaultMachinePlatform := none }


/-- Witness for C2 at concrete scenario-B inputs. -/
theorem claim_C2_witness : C2PlanShape cfgC2Witness [] 167772160 16 "infra" :=
  claim_C2_split_counts cfgC2Witness [] 167772160 16 "infra" (by decide)

/-- C8's failing input: base `10.0.0.0/26`, three regular zones, External
publish and four edge zones.  The base split (into /29 blocks) and the
public split succeed, but the edge super-block cannot be split into nine
blocks within 32 bits. -/
def cfgC8 : InstallCfg :=
  { Publish := PublishStrategy.external,
    ControlPlane := some ⟨"master", some ⟨["a", "b", "c"]⟩⟩,
    Compute := [⟨"worker", some ⟨["a", "b", "c"]⟩⟩,
               ⟨"edge", some ⟨["e1", "e2", "e3", "e4"]⟩⟩],
    DefaultMachinePlatform := none }


/-! ## Claim C8: error handling of the managed planner -/

/-- Counterexample to C8: on this input managed planning fails at the
edge-split stage, yet the caller-supplied network descriptor already
contains the six regular-zone subnets written by this planning run. -/
theorem claim_C8_counterexample :
    (setSubnetsManagedVPC cfgC8 [] ⟨167772160, 26⟩ "infra" emptyNet).2 =
      some PlanErr.edgeSplit ∧
    (setSubnetsManagedVPC cfgC8 [] ⟨167772160, 26⟩ "infra" emptyNet).1.Subnets.length = 6 := by
  decide

/-- The amended C8 property: on failure the stage error is returned; a
failure of the base split, public split or their guards leaves the
descriptor's subnet list unchanged, while an edge-stage failure leaves
exactly the regular-zone subnets of the completed stages written (and never
any edge subnet). -/
def C8AmendedProp (cfg : InstallCfg) (zir : List String) (A P : Nat)
    (infra : String) (net0 : NetworkSpec) (e : PlanErr) : Prop :=
  let az := (extractZonesFromInstallConfig cfg zir).AvailabilityZones
  let edge := (extractZonesFromInstallConfig cfg zir).EdgeZones
  let ext : Bool := cfg.Publish = PublishStrategy.external
  let r := setSubnetsManagedVPC cfg zir ⟨A, P⟩ infra net0
  r.1.VPC = ⟨"", some ⟨A, P⟩⟩ ∧
  ((r.1.Subnets = net0.Subnets ∧
     (e = PlanErr.privateSplit ∨ e = PlanErr.publicSplit ∨
      e = PlanErr.privateGuard ∨ e = PlanErr.publicGuard)) ∨
   ((e = PlanErr.edgeSplit ∨ e = PlanErr.edgePrivGuard ∨
     e = PlanErr.edgePubGuard) ∧ 0 < edge.length ∧
    ∃ privs pubs,
      SplitIntoSubnetsIPv4 ⟨A, P⟩
        (az.length + 1 + (if ext then 1 else 0) +
          (if 0 < edge.length then 1 else 0)) = Except.ok privs ∧
      (if ext then SplitIntoSubnetsIPv4 (privs.getD az.length d0) az.length =
         Except.ok pubs else pubs = []) ∧
      r.1.Subnets = net0.Subnets ++ regularLoop infra ext privs pubs 0 az))

/-- C8 (amended): for every error raised during managed-mode planning, the
error is returned immediately; failures before the regular-zone loop write
no subnets, but an edge-stage failure leaves the previously computed
regular-zone subnets in the caller-supplied descriptor. -/
theorem claim_C8_amended (cfg : InstallCfg) (zir : List String) (A P : Nat)
    (infra : String) (net0 : NetworkSpec) (e : PlanErr)
    (h : (setSubnetsManagedVPC cfg zir ⟨A, P⟩ infra net0).2 = some e) :
    C8AmendedProp cfg zir A P infra net0 e := by
  unfold C8AmendedProp
  unfold setSubnetsManagedVPC at h ⊢
  simp only [] at h ⊢
  have h' : managedCore (extractZonesFromInstallConfig cfg zir).AvailabilityZones
      (extractZonesFromInstallConfig cfg zir).EdgeZones
      (decide (cfg.Publish = PublishStrategy.external)) ⟨A, P⟩ infra net0 =
      ((managedCore (extractZonesFromInstallConfig cfg zir).AvailabilityZones
        (extractZonesFromInstallConfig cfg zir).EdgeZones
        (decide (cfg.Publish = PublishStrategy.external)) ⟨A, P⟩ infra net0).1,
       some e) := by
    rw [← h]
  exact managedCore_error h'

/-- Witness for the amended C8 at the concrete failing input. -/
theorem claim_C8_amended_witness :
    C8AmendedProp cfgC8 [] 167772160 26 "infra" emptyNet PlanErr.edgeSplit :=
  claim_C8_amended cfgC8 [] 167772160 26 "infra" emptyNet PlanErr.edgeSplit (by decide)

/-! ## Claim C9: edge and regular zone roles -/

/-- C9's failing input: the same zone name `z1` declared both on the
control-plane pool and on the edge compute pool. -/
def cfgC9 : InstallCfg :=
  { Publish := PublishStrategy.external,
    ControlPlane := some ⟨"master", some ⟨["z1"]⟩⟩,
    Compute := [⟨"edge", some ⟨["z1"]⟩⟩],
    DefaultMachinePlatform := none }

/-- Counterexample to C9: a zone listed in both the edge role and the
regular role appears in both zone sets, and planning proceeds without any
input-validation error. -/
theorem claim_C9_counterexample :
    (extractZonesFromInstallConfig cfgC9 []).EdgeZones = ["z1"] ∧
    (extractZonesFromInstallConfig cfgC9 []).AvailabilityZones = ["z1"] ∧
    (setSubnetsManagedVPC cfgC9 [] ⟨167772160, 16⟩ "infra" emptyNet).2 = none := by
  decide

/-- The zones declared on edge-role compute pools (with an AWS platform). -/
def poolsEdgeZones (pools : List MachinePool) : List String :=
  pools.foldr (fun p acc =>
    match p.PlatformAWS with
    | none => acc
    | some aw => if p.Name = roleEdge then aw.Zones ++ acc else acc) []

/-- The edge-pool zone declarations of the install config. -/
def edgePoolZones (cfg : InstallCfg) : List String := poolsEdgeZones cfg.Compute

/-- The zones declared on non-edge compute pools (with an AWS platform). -/
def poolsRegularZones (pools : List MachinePool) : List String :=
  pools.foldr (fun p acc =>
    match p.PlatformAWS with
    | none => acc
    | some aw => if p.Name = roleEdge then acc else aw.Zones ++ acc) []

/-- The platform default zones consulted by `extractZonesFromInstallConfig`. -/
def cfgDefaultZones (cfg : InstallCfg) : List String :=
  match cfg.DefaultMachinePlatform with
  | some p => if 0 < p.Zones.length then p.Zones else []
  | none => []

/-- Every zone-name source that can feed the regular (control-plane or
compute) zone sets: control-plane declarations, non-edge compute-pool
declarations, platform defaults and the region's zones. -/
def regularSourceZones (cfg : InstallCfg) (zir : List String) : List String :=
  (match cfg.ControlPlane with
   | some cp => match cp.PlatformAWS with
     | some aw => aw.Zones
     | none => []
   | none => []) ++ poolsRegularZones cfg.Compute ++ cfgDefaultZones cfg ++ zir

theorem setAvail_edge_eq (zo : zonesCAPI) (pool : String) (zs : List String) :
    (zo.setAvailabilityZones pool zs).edgeZones = zo.edgeZones := by
  unfold zonesCAPI.setAvailabilityZones
  split_ifs <;> rfl

theorem setDef_edge_eq (zo : zonesCAPI) (pool : String) (dz zir : List String) :
    (zo.setDefaultConfigZones pool dz zir).edgeZones = zo.edgeZones := by
  unfold zonesCAPI.setDefaultConfigZones
  split_ifs <;> rfl

theorem setAvail_cp_mem {zo : zonesCAPI} {pool : String} {zs : List String}
    {z : String} (h : z ∈ (zo.setAvailabilityZones pool zs).controlPlaneZones) :
    z ∈ zo.controlPlaneZones ∨ z ∈ zs := by
  unfold zonesCAPI.setAvailabilityZones at h
  split_ifs at h
  · exact mem_setInsert.mp h
  · exact Or.inl h
  · exact Or.inl h

theorem setAvail_comp_mem {zo : zonesCAPI} {pool : String} {zs : List String}
    {z : String} (h : z ∈ (zo.setAvailabilityZones pool zs).computeZones) :
    z ∈ zo.computeZones ∨ z ∈ zs := by
  unfold zonesCAPI.setAvailabilityZones at h
  split_ifs at h
  · exact Or.inl h
  · exact mem_setInsert.mp h
  · exact Or.inl h

theorem setDef_cp_mem {zo : zonesCAPI} {pool : String} {dz zir : List String}
    {z : String} (h : z ∈ (zo.setDefaultConfigZones pool dz zir).controlPlaneZones) :
    z ∈ zo.controlPlaneZones ∨ z ∈ dz ∨ z ∈ zir := by
  unfold zonesCAPI.setDefaultConfigZones at h
  split_ifs at h <;> first
    | (rcases mem_setInsert.mp h with h1 | h1
       · exact Or.inl h1
       · first
         | exact Or.inr (Or.inl h1)
         | exact Or.inr (Or.inr h1)
         | simp at h1)
    | exact Or.inl h

theorem setDef_comp_mem {zo : zonesCAPI} {pool : String} {dz zir : List String}
    {z : String} (h : z ∈ (zo.setDefaultConfigZones pool dz zir).computeZones) :
    z ∈ zo.computeZones ∨ z ∈ dz ∨ z ∈ zir := by
  unfold zonesCAPI.setDefaultConfigZones at h
  split_ifs at h <;> first
    | (rcases mem_setInsert.mp h with h1 | h1
       · exact Or.inl h1
       · first
         | exact Or.inr (Or.inl h1)
         | exact Or.inr (Or.inr h1)
         | simp at h1)
    | exact Or.inl h


theorem extractComputeStep_edge_mem {dz zir : List String} {o : zonesCAPI}
    {p : MachinePool} {z : String}
    (h : z ∈ (extractComputeStep dz zir o p).edgeZones) :
    z ∈ o.edgeZones ∨ z ∈ poolsEdgeZones [p] := by
  unfold extractComputeStep at h
  unfold poolsEdgeZones
  cases hpa : p.PlatformAWS with
  | none =>
    rw [hpa] at h
    simp only [] at h
    exact Or.inl h
  | some aw =>
    rw [hpa] at h
    simp only [] at h
    by_cases hname : p.Name = roleEdge
    · rw [if_pos hname] at h
      simp only [List.foldr, hpa, if_pos hname]
      have h' : z ∈ setInsert
          (if 0 < aw.Zones.length then o.setAvailabilityZones p.Name aw.Zones
           else o).edgeZones aw.Zones := h
      rcases mem_setInsert.mp h' with h1 | h1
      · left
        by_cases hlen : 0 < aw.Zones.length
        · rw [if_pos hlen, setAvail_edge_eq] at h1; exact h1
        · rw [if_neg hlen] at h1; exact h1
      · right
        simpa using h1
    · rw [if_neg hname] at h
      rw [setDef_edge_eq] at h
      left
      by_cases hlen : 0 < aw.Zones.length
      · rw [if_pos hlen, setAvail_edge_eq] at h; exact h
      · rw [if_neg hlen] at h; exact h

theorem extractComputeStep_cp_mem {dz zir : List String} {o : zonesCAPI}
    {p : MachinePool} {z : String}
    (h : z ∈ (extractComputeStep dz zir o p).controlPlaneZones) :
    z ∈ o.controlPlaneZones ∨ z ∈ poolsRegularZones [p] ∨ z ∈ dz ∨ z ∈ zir := by
  unfold extractComputeStep at h
  unfold poolsRegularZones
  cases hpa : p.PlatformAWS with
  | none =>
    rw [hpa] at h
    simp only [] at h
    exact Or.inl h
  | some aw =>
    rw [hpa] at h
    simp only [] at h
    by_cases hname : p.Name = roleEdge
    · rw [if_pos hname] at h
      have h' : z ∈ (if 0 < aw.Zones.length
          then o.setAvailabilityZones p.Name aw.Zones else o).controlPlaneZones := h
      left
      by_cases hlen : 0 < aw.Zones.length
      · rw [if_pos hlen, hname] at h'
        unfold zonesCAPI.setAvailabilityZones at h'
        rw [if_neg (by decide), if_neg (by decide)] at h'
        exact h'
      · rw [if_neg hlen] at h'; exact h'
    · rw [if_neg hname] at h
      rcases setDef_cp_mem h with h1 | h1 | h1
      · by_cases hlen : 0 < aw.Zones.length
        · rw [if_pos hlen] at h1
          rcases setAvail_cp_mem h1 with h2 | h2
          · exact Or.inl h2
          · right; left
            simp only [List.foldr, hpa, if_neg hname]
            simpa using h2
        · rw [if_neg hlen] at h1; exact Or.inl h1
      · exact Or.inr (Or.inr (Or.inl h1))
      · exact Or.inr (Or.inr (Or.inr h1))

theorem extractComputeStep_comp_mem {dz zir : List String} {o : zonesCAPI}
    {p : MachinePool} {z : String}
    (h : z ∈ (extractComputeStep dz zir o p).computeZones) :
    z ∈ o.computeZones ∨ z ∈ poolsRegularZones [p] ∨ z ∈ dz ∨ z ∈ zir := by
  unfold extractComputeStep at h
  unfold poolsRegularZones
  cases hpa : p.PlatformAWS with
  | none =>
    rw [hpa] at h
    simp only [] at h
    exact Or.inl h
  | some aw =>
    rw [hpa] at h
    simp only [] at h
    by_cases hname : p.Name = roleEdge
    · rw [if_pos hname] at h
      have h' : z ∈ (if 0 < aw.Zones.length
          then o.setAvailabilityZones p.Name aw.Zones else o).computeZones := h
      left
      by_cases hlen : 0 < aw.Zones.length
      · rw [if_pos hlen, hname] at h'
        unfold zonesCAPI.setAvailabilityZones at h'
        rw [if_neg (by decide), if_neg (by decide)] at h'
        exact h'
      · rw [if_neg hlen] at h'; exact h'
    · rw [if_neg hname] at h
      rcases setDef_comp_mem h with h1 | h1 | h1
      · by_cases hlen : 0 < aw.Zones.length
        · rw [if_pos hlen] at h1
          rcases setAvail_comp_mem h1 with h2 | h2
          · exact Or.inl h2
          · right; left
            simp only [List.foldr, hpa, if_neg hname]
            simpa using h2
        · rw [if_neg hlen] at h1; exact Or.inl h1
      · exact Or.inr (Or.inr (Or.inl h1))
      · exact Or.inr (Or.inr (Or.inr h1))

theorem poolsEdgeZones_cons {p : MachinePool} {ps : List MachinePool} {z : String} :
    z ∈ poolsEdgeZones (p :: ps) ↔ z ∈ poolsEdgeZones [p] ∨ z ∈ poolsEdgeZones ps := by
  unfold poolsEdgeZones
  cases hpa : p.PlatformAWS with
  | none => simp [hpa]
  | some aw =>
    by_cases hname : p.Name = roleEdge
    · simp [hpa, hname]
    · simp [hpa, hname]

theorem poolsRegularZones_cons {p : MachinePool} {ps : List MachinePool} {z : String} :
    z ∈ poolsRegularZones (p :: ps) ↔
      z ∈ poolsRegularZones [p] ∨ z ∈ poolsRegularZones ps := by
  unfold poolsRegularZones
  cases hpa : p.PlatformAWS with
  | none => simp [hpa]
  | some aw =>
    by_cases hname : p.Name = roleEdge
    · simp [hpa, hname]
    · simp [hpa, hname]

theorem foldl_extract_edge_mem {dz zir : List String} :
    ∀ (pools : List MachinePool) (o : zonesCAPI) (z : String),
      z ∈ (pools.foldl (extractComputeStep dz zir) o).edgeZones →
      z ∈ o.edgeZones ∨ z ∈ poolsEdgeZones pools := by
  intro pools
  induction pools with
  | nil => intro o z h; exact Or.inl h
  | cons p ps ih =>
    intro o z h
    rw [List.foldl_cons] at h
    rcases ih (extractComputeStep dz zir o p) z h with h1 | h1
    · rcases extractComputeStep_edge_mem h1 with h2 | h2
      · exact Or.inl h2
      · exact Or.inr (poolsEdgeZones_cons.mpr (Or.inl h2))
    · exact Or.inr (poolsEdgeZones_cons.mpr (Or.inr h1))

theorem foldl_extract_cp_mem {dz zir : List String} :
    ∀ (pools : List MachinePool) (o : zonesCAPI) (z : String),
      z ∈ (pools.foldl (extractComputeStep dz zir) o).controlPlaneZones →
      z ∈ o.controlPlaneZones ∨ z ∈ poolsRegularZones pools ∨ z ∈ dz ∨ z ∈ zir := by
  intro pools
  induction pools with
  | nil => intro o z h; exact Or.inl h
  | cons p ps ih =>
    intro o z h
    rw [List.foldl_cons] at h
    rcases ih (extractComputeStep dz zir o p) z h with h1 | h1 | h1 | h1
    · rcases extractComputeStep_cp_mem h1 with h2 | h2 | h2 | h2
      · exact Or.inl h2
      · exact Or.inr (Or.inl (poolsRegularZones_cons.mpr (Or.inl h2)))
      · exact Or.inr (Or.inr (Or.inl h2))
      · exact Or.inr (Or.inr (Or.inr h2))
    · exact Or.inr (Or.inl (poolsRegularZones_cons.mpr (Or.inr h1)))
    · exact Or.inr (Or.inr (Or.inl h1))
    · exact Or.inr (Or.inr (Or.inr h1))

theorem foldl_extract_comp_mem {dz zir : List String} :
    ∀ (pools : List MachinePool) (o : zonesCAPI) (z : String),
      z ∈ (pools.foldl (extractComputeStep dz zir) o).computeZones →
      z ∈ o.computeZones ∨ z ∈ poolsRegularZones pools ∨ z ∈ dz ∨ z ∈ zir := by
  intro pools
  induction pools with
  | nil => intro o z h; exact Or.inl h
  | cons p ps ih =>
    intro o z h
    rw [List.foldl_cons] at h
    rcases ih (extractComputeStep dz zir o p) z h with h1 | h1 | h1 | h1
    · rcases extractComputeStep_comp_mem h1 with h2 | h2 | h2 | h2
      · exact Or.inl h2
      · exact Or.inr (Or.inl (poolsRegularZones_cons.mpr (Or.inl h2)))
      · exact Or.inr (Or.inr (Or.inl h2))
      · exact Or.inr (Or.inr (Or.inr h2))
    · exact Or.inr (Or.inl (poolsRegularZones_cons.mpr (Or.inr h1)))
    · exact Or.inr (Or.inr (Or.inl h1))
    · exact Or.inr (Or.inr (Or.inr h1))

theorem extract_edge_source {cfg : InstallCfg} {zir : List String} {z : String}
    (h : z ∈ (extractZonesFromInstallConfig cfg zir).edgeZones) :
    z ∈ edgePoolZones cfg := by
  unfold extractZonesFromInstallConfig at h
  simp only [] at h
  rcases foldl_extract_edge_mem cfg.Compute _ z h with h1 | h1
  · rw [setDef_edge_eq] at h1
    exfalso
    cases hcp : cfg.ControlPlane with
    | none => rw [hcp] at h1; simp at h1
    | some cp =>
      rw [hcp] at h1
      simp only [] at h1
      cases hpa : cp.PlatformAWS with
      | none => rw [hpa] at h1; simp at h1
      | some aw =>
        rw [hpa] at h1
        simp only [] at h1
        rw [setAvail_edge_eq] at h1
        simp at h1
  · exact h1


/-- The control-plane pool's declared zones (empty when absent). -/
def cpDeclZones (cfg : InstallCfg) : List String :=
  match cfg.ControlPlane with
  | some cp =>
    match cp.PlatformAWS with
    | some aw => aw.Zones
    | none => []
  | none => []

theorem extract_regular_source {cfg : InstallCfg} {zir : List String} {z : String}
    (h : z ∈ (extractZonesFromInstallConfig cfg zir).controlPlaneZones ∨
         z ∈ (extractZonesFromInstallConfig cfg zir).computeZones) :
    z ∈ regularSourceZones cfg zir := by
  unfold extractZonesFromInstallConfig at h
  simp only [] at h
  unfold regularSourceZones
  have hout1 : ∀ w, (w ∈ (match cfg.ControlPlane with
      | some cp =>
        match cp.PlatformAWS with
        | some aw => zonesCAPI.setAvailabilityZones ⟨[], [], []⟩ roleControlPlane aw.Zones
        | none => (⟨[], [], []⟩ : zonesCAPI)
      | none => (⟨[], [], []⟩ : zonesCAPI)).controlPlaneZones ∨
      w ∈ (match cfg.ControlPlane with
      | some cp =>
        match cp.PlatformAWS with
        | some aw => zonesCAPI.setAvailabilityZones ⟨[], [], []⟩ roleControlPlane aw.Zones
        | none => (⟨[], [], []⟩ : zonesCAPI)
      | none => (⟨[], [], []⟩ : zonesCAPI)).computeZones) →
      w ∈ cpDeclZones cfg := by
    intro w hw
    cases hcp : cfg.ControlPlane with
    | none =>
      rw [hcp] at hw
      simp only [] at hw
      rcases hw with hw | hw <;> simp at hw
    | some cp =>
      rw [hcp] at hw
      simp only [] at hw
      cases hpa : cp.PlatformAWS with
      | none =>
        rw [hpa] at hw
        simp only [] at hw
        rcases hw with hw | hw <;> simp at hw
      | some aw =>
        rw [hpa] at hw
        simp only [] at hw
        simp only [cpDeclZones, hcp, hpa]
        rcases hw with hw | hw
        · rcases setAvail_cp_mem hw with h2 | h2
          · simp at h2
          · exact h2
        · rcases setAvail_comp_mem hw with h2 | h2
          · simp at h2
          · exact h2
  simp only [List.mem_append]
  rcases h with h | h
  · rcases foldl_extract_cp_mem cfg.Compute _ z h with h1 | h1 | h1 | h1
    · rcases setDef_cp_mem h1 with h2 | h2 | h2
      · exact Or.inl (Or.inl (Or.inl (hout1 z (Or.inl h2))))
      · exact Or.inl (Or.inr h2)
      · exact Or.inr h2
    · exact Or.inl (Or.inl (Or.inr h1))
    · exact Or.inl (Or.inr h1)
    · exact Or.inr h1
  · rcases foldl_extract_comp_mem cfg.Compute _ z h with h1 | h1 | h1 | h1
    · rcases setDef_comp_mem h1 with h2 | h2 | h2
      · exact Or.inl (Or.inl (Or.inl (hout1 z (Or.inr h2))))
      · exact Or.inl (Or.inr h2)
      · exact Or.inr h2
    · exact Or.inl (Or.inl (Or.inr h1))
    · exact Or.inl (Or.inr h1)
    · exact Or.inr h1

/-- C9 (amended): `extractZonesFromInstallConfig` performs no cross-role
check; edge zones come only from edge-pool declarations and regular zones
only from control-plane, compute, default and region sources, so the edge
and regular zone sets are disjoint whenever those input sources are
disjoint from the edge-pool declarations.  An input listing one zone in
both roles is not rejected: the zone appears in both sets. -/
theorem claim_C9_amended (cfg : InstallCfg) (zir : List String)
    (hdisj : ∀ z ∈ edgePoolZones cfg, z ∉ regularSourceZones cfg zir) :
    ∀ z ∈ (extractZonesFromInstallConfig cfg zir).EdgeZones,
      z ∉ (extractZonesFromInstallConfig cfg zir).AvailabilityZones := by
  intro z hz hcontra
  have hzedge : z ∈ (extractZonesFromInstallConfig cfg zir).edgeZones := by
    unfold zonesCAPI.EdgeZones at hz
    exact mem_setSorted.mp hz
  have hzreg : z ∈ (extractZonesFromInstallConfig cfg zir).controlPlaneZones ∨
      z ∈ (extractZonesFromInstallConfig cfg zir).computeZones := by
    unfold zonesCAPI.AvailabilityZones at hcontra
    exact mem_setInsert.mp (mem_setSorted.mp hcontra)
  exact hdisj z (extract_edge_source hzedge) (extract_regular_source hzreg)

/-- A configuration with disjoint edge and regular zone declarations, used
by the C9 witness. -/
def cfgC9Disjoint : InstallCfg :=
  { Publish := PublishStrategy.external,
    ControlPlane := some ⟨"master", some ⟨["a"]⟩⟩,
    Compute := [⟨"worker", some ⟨["a"]⟩⟩, ⟨"edge", some ⟨["e"]⟩⟩],
    DefaultMachinePlatform := none }

/-- Witness for the amended C9: with disjoint inputs, the edge zone `e`
never appears in both roles' outputs. -/
theorem claim_C9_witness :
    ¬ ("e" ∈ (extractZonesFromInstallConfig cfgC9Disjoint []).AvailabilityZones ∧
       "e" ∈ (extractZonesFromInstallConfig cfgC9Disjoint []).EdgeZones) :=
  fun hc => claim_C9_amended cfgC9Disjoint [] (by decide) "e" hc.2 hc.1

/-! ## Claims C4, C7, C10: the subnet classifier -/

/-! Generic lemmas about last-match folds (the loop shape of `isSubnetPublic`). -/

theorem lastMatch_none_iff {α : Type} (p : α → Bool) :
    ∀ (l : List α) (init : Option α),
      l.foldl (fun acc t => if p t then some t else acc) init = none ↔
        init = none ∧ ∀ t ∈ l, p t = false := by
  intro l
  induction l with
  | nil => intro init; simp
  | cons u rest ih =>
    intro init
    rw [List.foldl_cons, ih]
    by_cases hu : p u
    · rw [if_pos hu]
      simp only [List.mem_cons]
      constructor
      · rintro ⟨h1, -⟩; cases h1
      · rintro ⟨-, hall⟩
        exact absurd (hall u (Or.inl rfl)) (by simp [hu])
    · rw [if_neg hu]
      simp only [List.mem_cons]
      constructor
      · rintro ⟨h1, hall⟩
        refine ⟨h1, ?_⟩
        rintro t (rfl | ht)
        · simpa using hu
        · exact hall t ht
      · rintro ⟨h1, hall⟩
        exact ⟨h1, fun t ht => hall t (Or.inr ht)⟩

theorem lastMatch_some_mem {α : Type} (p : α → Bool) :
    ∀ (l : List α) (init : Option α) (t : α),
      l.foldl (fun acc u => if p u then some u else acc) init = some t →
      init = some t ∨ (t ∈ l ∧ p t = true) := by
  intro l
  induction l with
  | nil => intro init t h; exact Or.inl h
  | cons u rest ih =>
    intro init t h
    rw [List.foldl_cons] at h
    rcases ih _ t h with h1 | h1
    · by_cases hu : p u
      · rw [if_pos hu] at h1
        right
        cases h1
        exact ⟨List.mem_cons_self u rest, hu⟩
      · rw [if_neg hu] at h1
        exact Or.inl h1
    · exact Or.inr ⟨List.mem_cons_of_mem u h1.1, h1.2⟩

theorem lastMatch_const {α : Type} (p : α → Bool) :
    ∀ (l : List α) (t : α), (∀ u ∈ l, p u = true → u = t) →
      l.foldl (fun acc u => if p u then some u else acc) (some t) = some t := by
  intro l
  induction l with
  | nil => intro t _; rfl
  | cons u rest ih =>
    intro t hall
    rw [List.foldl_cons]
    by_cases hu : p u
    · rw [if_pos hu, hall u (List.mem_cons_self u rest) hu]
      exact ih t fun v hv => hall v (List.mem_cons_of_mem u hv)
    · rw [if_neg hu]
      exact ih t fun v hv => hall v (List.mem_cons_of_mem u hv)

theorem lastMatch_unique {α : Type} (p : α → Bool) :
    ∀ (l : List α) (t : α), t ∈ l → p t = true →
      (∀ u ∈ l, p u = true → u = t) →
      l.foldl (fun acc u => if p u then some u else acc) none = some t := by
  intro l
  induction l with
  | nil => intro t ht; simp at ht
  | cons u rest ih =>
    intro t ht hp hall
    rw [List.foldl_cons]
    by_cases hu : p u
    · rw [if_pos hu, hall u (List.mem_cons_self u rest) hu]
      exact lastMatch_const p rest t fun v hv => hall v (List.mem_cons_of_mem u hv)
    · rw [if_neg hu]
      rcases List.mem_cons.mp ht with rfl | ht'
      · exact absurd hp (by simp [hu])
      · exact ih t ht' hp fun v hv => hall v (List.mem_cons_of_mem u hv)

/-- The route-table resolution relation of the spec: a table serves the
subnet when it is explicitly associated with it or, when no table is, when
it is marked as the VPC's main table. -/
def resolvesFor (rts : List RouteTable) (subnetID : String) (t : RouteTable) : Prop :=
  explicitFor subnetID t = true ∨
    ((∀ u ∈ rts, explicitFor subnetID u = false) ∧ isMainTable t = true)

/-- C4: for every subnet ID and route-table list (with at most one
explicitly associated table and at most one main table, as in a real VPC),
`isSubnetPublic` resolves the subnet's route table as the explicitly
associated table or, failing that, the main table, and reports public
exactly when the resolved table has a route whose gateway identifier starts
with `igw`; a table whose routes all point elsewhere (e.g. `vgw-` or `pcx-`
targets) yields private. -/
theorem claim_C4_classifier (rts : List RouteTable) (id : String)
    (hx : ∀ t1 ∈ rts, ∀ t2 ∈ rts, explicitFor id t1 = true →
      explicitFor id t2 = true → t1 = t2)
    (hm : ∀ t1 ∈ rts, ∀ t2 ∈ rts, isMainTable t1 = true →
      isMainTable t2 = true → t1 = t2) :
    (isSubnetPublic rts id = Except.ok true ↔
      ∃ t ∈ rts, resolvesFor rts id t ∧
        ∃ r ∈ t.Routes, strHasPrefix "igw" (stringValue r.GatewayId) = true) ∧
    (isSubnetPublic rts id = Except.ok false ↔
      ∃ t ∈ rts, resolvesFor rts id t ∧
        ∀ r ∈ t.Routes, ¬ strHasPrefix "igw" (stringValue r.GatewayId) = true) := by
  unfold isSubnetPublic
  cases hF : findAssociatedTable rts id with
  | some t =>
    simp only []
    have hmem : t ∈ rts ∧ explicitFor id t = true := by
      rcases lastMatch_some_mem (explicitFor id) rts none t hF with h1 | h1
      · cases h1
      · exact h1
    have hres : ∀ t', t' ∈ rts → resolvesFor rts id t' →
        (∃ r ∈ t'.Routes, strHasPrefix "igw" (stringValue r.GatewayId) = true) →
        hasIgwRoute t = true := by
      intro t' ht' hres' hr
      rcases hres' with hexp | ⟨hnone, -⟩
      · have : t' = t := hx t' ht' t hmem.1 hexp hmem.2
        subst this
        unfold hasIgwRoute
        rw [List.any_eq_true]
        obtain ⟨r, hr1, hr2⟩ := hr
        exact ⟨r, hr1, hr2⟩
      · exact absurd hmem.2 (by simp [hnone t hmem.1])
    constructor
    · constructor
      · intro h
        have higw : hasIgwRoute t = true := Except.ok.inj h
        refine ⟨t, hmem.1, Or.inl hmem.2, ?_⟩
        unfold hasIgwRoute at higw
        rw [List.any_eq_true] at higw
        obtain ⟨r, hr1, hr2⟩ := higw
        exact ⟨r, hr1, hr2⟩
      · rintro ⟨t', ht', hres', hr⟩
        rw [hres t' ht' hres' hr]
    · constructor
      · intro h
        have higw : hasIgwRoute t = false := Except.ok.inj h
        refine ⟨t, hmem.1, Or.inl hmem.2, ?_⟩
        unfold hasIgwRoute at higw
        rw [List.any_eq_false] at higw
        intro r hr
        exact fun hc => higw r hr hc
      · rintro ⟨t', ht', hres', hr⟩
        have ht'' : t' = t := by
          rcases hres' with hexp | ⟨hnone, -⟩
          · exact hx t' ht' t hmem.1 hexp hmem.2
          · exact absurd hmem.2 (by simp [hnone t hmem.1])
        subst ht''
        have : hasIgwRoute t' = false := by
          unfold hasIgwRoute
          rw [List.any_eq_false]
          intro r hrr
          exact fun hc => (hr r hrr) hc
        rw [this]
  | none =>
    simp only []
    have hnoexp : ∀ u ∈ rts, explicitFor id u = false :=
      ((lastMatch_none_iff (explicitFor id) rts none).mp hF).2
    cases hM : findMainTable rts with
    | some t =>
      simp only []
      have hmem : t ∈ rts ∧ isMainTable t = true := by
        rcases lastMatch_some_mem isMainTable rts none t hM with h1 | h1
        · cases h1
        · exact h1
      have huniq : ∀ t', t' ∈ rts → resolvesFor rts id t' → t' = t := by
        intro t' ht' hres'
        rcases hres' with hexp | ⟨-, hmain⟩
        · exact absurd hexp (by simp [hnoexp t' ht'])
        · exact hm t' ht' t hmem.1 hmain hmem.2
      constructor
      · constructor
        · intro h
          have higw : hasIgwRoute t = true := Except.ok.inj h
          refine ⟨t, hmem.1, Or.inr ⟨hnoexp, hmem.2⟩, ?_⟩
          unfold hasIgwRoute at higw
          rw [List.any_eq_true] at higw
          obtain ⟨r, hr1, hr2⟩ := higw
          exact ⟨r, hr1, hr2⟩
        · rintro ⟨t', ht', hres', hr⟩
          have := huniq t' ht' hres'
          subst this
          have : hasIgwRoute t' = true := by
            unfold hasIgwRoute
            rw [List.any_eq_true]
            obtain ⟨r, hr1, hr2⟩ := hr
            exact ⟨r, hr1, hr2⟩
          rw [this]
      · constructor
        · intro h
          have higw : hasIgwRoute t = false := Except.ok.inj h
          refine ⟨t, hmem.1, Or.inr ⟨hnoexp, hmem.2⟩, ?_⟩
          unfold hasIgwRoute at higw
          rw [List.any_eq_false] at higw
          exact fun r hr hc => higw r hr hc
        · rintro ⟨t', ht', hres', hr⟩
          have := huniq t' ht' hres'
          subst this
          have : hasIgwRoute t' = false := by
            unfold hasIgwRoute
            rw [List.any_eq_false]
            exact fun r hrr hc => (hr r hrr) hc
          rw [this]
    | none =>
      simp only []
      have hnomain : ∀ u ∈ rts, isMainTable u = false :=
        ((lastMatch_none_iff isMainTable rts none).mp hM).2
      constructor
      · constructor
        · intro h; cases h
        · rintro ⟨t', ht', hres', -⟩
          rcases hres' with hexp | ⟨-, hmain⟩
          · exact absurd hexp (by simp [hnoexp t' ht'])
          · exact absurd hmain (by simp [hnomain t' ht'])
      · constructor
        · intro h; cases h
        · rintro ⟨t', ht', hres', -⟩
          rcases hres' with hexp | ⟨-, hmain⟩
          · exact absurd hexp (by simp [hnoexp t' ht'])
          · exact absurd hmain (by simp [hnomain t' ht'])

/-- `isSubnetPublic` fails with the routing-table-not-found error exactly
when no table is explicitly associated and no table is marked main. -/
theorem isSubnetPublic_error_iff (rts : List RouteTable) (id : String) :
    isSubnetPublic rts id = Except.error (SubnetErr.routingTableNotFound id) ↔
      (∀ t ∈ rts, explicitFor id t = false) ∧ (∀ t ∈ rts, isMainTable t = false) := by
  unfold isSubnetPublic
  cases hF : findAssociatedTable rts id with
  | some t =>
    simp only []
    constructor
    · intro h; cases h
    · rintro ⟨hexp, -⟩
      rcases lastMatch_some_mem (explicitFor id) rts none t hF with h1 | h1
      · cases h1
      · exact absurd h1.2 (by simp [hexp t h1.1])
  | none =>
    simp only []
    cases hM : findMainTable rts with
    | some t =>
      simp only []
      constructor
      · intro h; cases h
      · rintro ⟨-, hmain⟩
        rcases lastMatch_some_mem isMainTable rts none t hM with h1 | h1
        · cases h1
        · exact absurd h1.2 (by simp [hmain t h1.1])
    | none =>
      simp only []
      constructor
      · intro _
        exact ⟨((lastMatch_none_iff (explicitFor id) rts none).mp hF).2,
          ((lastMatch_none_iff isMainTable rts none).mp hM).2⟩
      · intro _; trivial

theorem classifyLoop_ok_resolvable {metas : List (String × ICSubnet)}
    {rt : List RouteTable} {azT azG : String → String} :
    ∀ (ids : List String) (acc g : SubnetsGroups),
      classifyLoop metas rt azT azG ids acc = Except.ok g →
      ∀ id ∈ ids, ∃ b, isSubnetPublic rt id = Except.ok b := by
  intro ids
  induction ids with
  | nil => intro acc g _ id hid; simp at hid
  | cons id rest ih =>
    intro acc g h id' hid'
    unfold classifyLoop at h
    cases hlook : lookupMeta metas id with
    | none => rw [hlook] at h; cases h
    | some m =>
      rw [hlook] at h
      simp only [] at h
      cases hpub : isSubnetPublic rt id with
      | error e => rw [hpub] at h; cases h
      | ok b =>
        rw [hpub] at h
        simp only [] at h
        rcases List.mem_cons.mp hid' with rfl | hid''
        · exact ⟨b, hpub⟩
        · by_cases h1 : azT m.Zone = localZoneType
          · rw [if_pos h1] at h
            by_cases h2 : ¬ b
            · rw [if_pos h2] at h; cases h
            · rw [if_neg h2] at h
              exact ih _ g h id' hid''
          · rw [if_neg h1] at h
            by_cases h2 : b
            · rw [if_pos h2] at h
              exact ih _ g h id' hid''
            · rw [if_neg h2] at h
              exact ih _ g h id' hid''

theorem classifyLoop_error_propagates {metas : List (String × ICSubnet)}
    {rt : List RouteTable} {azT azG : String → String} :
    ∀ (ids : List String) (acc : SubnetsGroups) (id : String) (e : SubnetErr),
      id ∈ ids → isSubnetPublic rt id = Except.error e →
      ∃ e', classifyLoop metas rt azT azG ids acc = Except.error e' := by
  intro ids
  induction ids with
  | nil => intro acc id e hid; simp at hid
  | cons id0 rest ih =>
    intro acc id e hid herr
    unfold classifyLoop
    cases hlook : lookupMeta metas id0 with
    | none => exact ⟨SubnetErr.notFoundMeta id0, rfl⟩
    | some m =>
      simp only []
      cases hpub : isSubnetPublic rt id0 with
      | error e0 => exact ⟨e0, rfl⟩
      | ok b =>
        simp only []
        rcases List.mem_cons.mp hid with rfl | hid'
        · rw [hpub] at herr; cases herr
        · by_cases h1 : azT m.Zone = localZoneType
          · rw [if_pos h1]
            by_cases h2 : ¬ b
            · rw [if_pos h2]
              exact ⟨SubnetErr.localZonePrivate id0 m.Zone (azT m.Zone), rfl⟩
            · rw [if_neg h2]
              exact ih _ id e hid' herr
          · rw [if_neg h1]
            by_cases h2 : b
            · rw [if_pos h2]
              exact ih _ id e hid' herr
            · rw [if_neg h2]
              exact ih _ id e hid' herr

theorem classifyLoop_localPrivate_error {metas : List (String × ICSubnet)}
    {rt : List RouteTable} {azT azG : String → String} :
    ∀ (ids : List String) (acc : SubnetsGroups) (id : String) (m : ICSubnet),
      id ∈ ids → lookupMeta metas id = some m →
      azT m.Zone = localZoneType → isSubnetPublic rt id = Except.ok false →
      ∃ e, classifyLoop metas rt azT azG ids acc = Except.error e := by
  intro ids
  induction ids with
  | nil => intro acc id m hid; simp at hid
  | cons id0 rest ih =>
    intro acc id m hid hlook hzone hpriv
    unfold classifyLoop
    cases hlook0 : lookupMeta metas id0 with
    | none => exact ⟨SubnetErr.notFoundMeta id0, rfl⟩
    | some m0 =>
      simp only []
      cases hpub0 : isSubnetPublic rt id0 with
      | error e0 => exact ⟨e0, rfl⟩
      | ok b =>
        simp only []
        rcases List.mem_cons.mp hid with heq | hid'
        · rw [heq] at hlook hpriv
          rw [hlook0] at hlook
          have hm : m0 = m := Option.some.inj hlook
          have hb : b = false := by
            rw [hpub0] at hpriv
            exact Except.ok.inj hpriv
          rw [if_pos (by rw [hm]; exact hzone)]
          rw [if_pos (by rw [hb]; simp)]
          exact ⟨SubnetErr.localZonePrivate id0 m0.Zone (azT m0.Zone), rfl⟩
        · by_cases h1 : azT m0.Zone = localZoneType
          · rw [if_pos h1]
            by_cases h2 : ¬ b
            · rw [if_pos h2]
              exact ⟨SubnetErr.localZonePrivate id0 m0.Zone (azT m0.Zone), rfl⟩
            · rw [if_neg h2]
              exact ih _ id m hid' hlook hzone hpriv
          · rw [if_neg h1]
            by_cases h2 : b
            · rw [if_pos h2]
              exact ih _ id m hid' hlook hzone hpriv
            · rw [if_neg h2]
              exact ih _ id m hid' hlook hzone hpriv

/-- No private local-zone subnet record: every classified record is either
not in a local zone or public. -/
def noPrivateLocalZone (g : SubnetsGroups) : Prop :=
  ∀ p ∈ g.Private ++ g.Public ++ g.Edge,
    ¬ (p.2.ZoneType = localZoneType ∧ p.2.Public = false)

theorem noPrivateLocalZone_addPrivate {acc : SubnetsGroups}
    {x : String × ICSubnet} (hacc : noPrivateLocalZone acc)
    (hx : ¬ (x.2.ZoneType = localZoneType ∧ x.2.Public = false)) :
    noPrivateLocalZone { acc with Private := acc.Private ++ [x] } := by
  intro p hp
  simp only [List.mem_append, List.mem_singleton] at hp
  have hcase : p ∈ acc.Private ++ acc.Public ++ acc.Edge ∨ p = x := by
    simp only [List.mem_append]
    tauto
  rcases hcase with h | rfl
  · exact hacc p h
  · exact hx

theorem noPrivateLocalZone_addPublic {acc : SubnetsGroups}
    {x : String × ICSubnet} (hacc : noPrivateLocalZone acc)
    (hx : ¬ (x.2.ZoneType = localZoneType ∧ x.2.Public = false)) :
    noPrivateLocalZone { acc with Public := acc.Public ++ [x] } := by
  intro p hp
  simp only [List.mem_append, List.mem_singleton] at hp
  have hcase : p ∈ acc.Private ++ acc.Public ++ acc.Edge ∨ p = x := by
    simp only [List.mem_append]
    tauto
  rcases hcase with h | rfl
  · exact hacc p h
  · exact hx

theorem noPrivateLocalZone_addEdge {acc : SubnetsGroups}
    {x : String × ICSubnet} (hacc : noPrivateLocalZone acc)
    (hx : ¬ (x.2.ZoneType = localZoneType ∧ x.2.Public = false)) :
    noPrivateLocalZone { acc with Edge := acc.Edge ++ [x] } := by
  intro p hp
  simp only [List.mem_append, List.mem_singleton] at hp
  have hcase : p ∈ acc.Private ++ acc.Public ++ acc.Edge ∨ p = x := by
    simp only [List.mem_append]
    tauto
  rcases hcase with h | rfl
  · exact hacc p h
  · exact hx

theorem classifyLoop_noPrivateLocalZone {metas : List (String × ICSubnet)}
    {rt : List RouteTable} {azT azG : String → String} :
    ∀ (ids : List String) (acc g : SubnetsGroups),
      noPrivateLocalZone acc →
      classifyLoop metas rt azT azG ids acc = Except.ok g →
      noPrivateLocalZone g := by
  intro ids
  induction ids with
  | nil =>
    intro acc g hacc h
    cases h
    exact hacc
  | cons id0 rest ih =>
    intro acc g hacc h
    unfold classifyLoop at h
    cases hlook0 : lookupMeta metas id0 with
    | none => rw [hlook0] at h; cases h
    | some m0 =>
      rw [hlook0] at h
      simp only [] at h
      cases hpub0 : isSubnetPublic rt id0 with
      | error e0 => rw [hpub0] at h; cases h
      | ok b =>
        rw [hpub0] at h
        simp only [] at h
        by_cases h1 : azT m0.Zone = localZoneType
        · rw [if_pos h1] at h
          by_cases h2 : ¬ b
          · rw [if_pos h2] at h; cases h
          · rw [if_neg h2] at h
            have hb : b = true := by
              cases b
              · exact absurd (by simp) h2
              · rfl
            refine ih _ g (noPrivateLocalZone_addEdge hacc ?_) h
            simp [hb]
        · rw [if_neg h1] at h
          by_cases h2 : b
          · rw [if_pos h2] at h
            refine ih _ g (noPrivateLocalZone_addPublic hacc ?_) h
            simp [h2]
          · rw [if_neg h2] at h
            refine ih _ g (noPrivateLocalZone_addPrivate hacc ?_) h
            simp [h1]

instance {ε α : Type} [DecidableEq ε] [DecidableEq α] : DecidableEq (Except ε α) := fun x y =>
  match x, y with
  | Except.ok a, Except.ok b =>
    if h : a = b then Decidable.isTrue (by rw [h])
    else Decidable.isFalse (fun hc => h (Except.ok.inj hc))
  | Except.error a, Except.error b =>
    if h : a = b then Decidable.isTrue (by rw [h])
    else Decidable.isFalse (fun hc => h (Except.error.inj hc))
  | Except.ok _, Except.error _ => Decidable.isFalse (fun hc => Except.noConfusion hc)
  | Except.error _, Except.ok _ => Decidable.isFalse (fun hc => Except.noConfusion hc)

/-- C7: classification fails with the routing-table-not-found error exactly
when, for some subnet, neither an explicitly associated nor a main-marked
route table exists; any such failure aborts the whole classification run
(an `ok` result implies every subnet resolved a table), so no classified
groups are returned. -/
theorem claim_C7_routing_table :
    (∀ (rts : List RouteTable) (id : String),
      isSubnetPublic rts id = Except.error (SubnetErr.routingTableNotFound id) ↔
        (∀ t ∈ rts, explicitFor id t = false) ∧
        (∀ t ∈ rts, isMainTable t = false)) ∧
    (∀ (ids : List String) (metas : List (String × ICSubnet))
      (rt : List RouteTable) (azT azG : String → String) (vpc : String)
      (g : SubnetsGroups),
      classifySubnets ids metas rt azT azG vpc = Except.ok g →
      ∀ id ∈ ids, ∃ b, isSubnetPublic rt id = Except.ok b) ∧
    (∀ (ids : List String) (metas : List (String × ICSubnet))
      (rt : List RouteTable) (azT azG : String → String) (vpc : String)
      (id : String), id ∈ ids →
      isSubnetPublic rt id = Except.error (SubnetErr.routingTableNotFound id) →
      ∃ e, classifySubnets ids metas rt azT azG vpc = Except.error e) := by
  refine ⟨isSubnetPublic_error_iff, ?_, ?_⟩
  · intro ids metas rt azT azG vpc g h id hid
    exact classifyLoop_ok_resolvable ids _ g h id hid
  · intro ids metas rt azT azG vpc id hid herr
    exact classifyLoop_error_propagates ids _ id _ hid herr

/-- Witness for C7: with an empty route-table list, classification of a
subnet fails and the whole gathering run returns an error. -/
theorem claim_C7_witness :
    (isSubnetPublic ([] : List RouteTable) "subnet-1" =
      Except.error (SubnetErr.routingTableNotFound "subnet-1")) ∧
    (∃ e, classifySubnets ["subnet-1"] [("subnet-1", ⟨"arn", "z", "10.0.1.0/24", "", "", false⟩)]
       [] (fun _ => "availability-zone") (fun _ => "region") "vpc-1" = Except.error e) := by
  constructor
  · exact (claim_C7_routing_table.1 [] "subnet-1").mpr ⟨by simp, by simp⟩
  · refine claim_C7_routing_table.2.2 ["subnet-1"]
      [("subnet-1", ⟨"arn", "z", "10.0.1.0/24", "", "", false⟩)] []
      (fun _ => "availability-zone") (fun _ => "region") "vpc-1" "subnet-1"
      (by simp) ?_
    exact (claim_C7_routing_table.1 [] "subnet-1").mpr ⟨by simp, by simp⟩

/-- C10: a subnet whose zone type is `local-zone` that the classifier finds
private makes the whole subnet-gathering call fail; consequently no
returned group ever contains a private local-zone subnet. -/
theorem claim_C10_private_local_zone :
    (∀ (ids : List String) (metas : List (String × ICSubnet))
      (rt : List RouteTable) (azT azG : String → String) (vpc id : String)
      (m : ICSubnet), id ∈ ids → lookupMeta metas id = some m →
      azT m.Zone = localZoneType → isSubnetPublic rt id = Except.ok false →
      ∃ e, classifySubnets ids metas rt azT azG vpc = Except.error e) ∧
    (∀ (ids : List String) (metas : List (String × ICSubnet))
      (rt : List RouteTable) (azT azG : String → String) (vpc : String)
      (g : SubnetsGroups),
      classifySubnets ids metas rt azT azG vpc = Except.ok g →
      noPrivateLocalZone g) := by
  constructor
  · intro ids metas rt azT azG vpc id m hid hlook hzone hpriv
    exact classifyLoop_localPrivate_error ids _ id m hid hlook hzone hpriv
  · intro ids metas rt azT azG vpc g h
    refine classifyLoop_noPrivateLocalZone ids _ g ?_ h
    intro p hp
    simp at hp

/-- Witness for C10: a local-zone subnet whose route table has only a
virtual-private-gateway route aborts the run with an error. -/
theorem claim_C10_witness :
    ∃ e, classifySubnets ["subnet-1"]
      [("subnet-1", ⟨"arn", "lz-zone", "10.0.1.0/24", "", "", false⟩)]
      [⟨some "rtb-1", [⟨some "subnet-1", none⟩], [⟨some "vgw-1"⟩]⟩]
      (fun _ => "local-zone") (fun _ => "group") "vpc-1" = Except.error e :=
  claim_C10_private_local_zone.1 ["subnet-1"]
    [("subnet-1", ⟨"arn", "lz-zone", "10.0.1.0/24", "", "", false⟩)]
    [⟨some "rtb-1", [⟨some "subnet-1", none⟩], [⟨some "vgw-1"⟩]⟩]
    (fun _ => "local-zone") (fun _ => "group") "vpc-1" "subnet-1"
    ⟨"arn", "lz-zone", "10.0.1.0/24", "", "", false⟩
    (by simp) (by decide) rfl (by decide)

/-- Witness for C4: a subnet with an explicitly associated table holding an
internet-gateway route is classified public. -/
theorem claim_C4_witness :
    isSubnetPublic
      [⟨some "rtb-1", [⟨some "subnet-1", none⟩], [⟨some "igw-12345"⟩]⟩]
      "subnet-1" = Except.ok true :=
  ((claim_C4_classifier
      [⟨some "rtb-1", [⟨some "subnet-1", none⟩], [⟨some "igw-12345"⟩]⟩]
      "subnet-1" (by decide) (by decide)).1).mpr
    ⟨⟨some "rtb-1", [⟨some "subnet-1", none⟩], [⟨some "igw-12345"⟩]⟩,
      by decide, Or.inl (by decide), ⟨some "igw-12345"⟩, by decide, by decide⟩

/-! ## Claim C6: VPC mismatch in subnet gathering -/

/-- The describe-subnets loop fails with the VPC-mismatch error exactly
when some record's VPC differs from the running baseline. -/
theorem gatherLoop_mismatch_iff :
    ∀ (subs : List EC2SubnetRec) (vpc vpcFrom : String)
      (metas : List (String × ICSubnet)), vpc ≠ "" →
      (∀ s ∈ subs, s.SubnetId.isSome ∧ s.SubnetArn.isSome ∧
        s.VpcId.isSome ∧ s.AvailabilityZone.isSome) →
      ((∃ a b c d, gatherLoop subs vpc vpcFrom metas =
          Except.error (SubnetErr.vpcMismatch a b c d)) ↔
        ∃ s ∈ subs, stringValue s.VpcId ≠ vpc) := by
  intro subs
  induction subs with
  | nil =>
    intro vpc vpcFrom metas hvpc hwf
    simp [gatherLoop]
  | cons s rest ih =>
    intro vpc vpcFrom metas hvpc hwf
    obtain ⟨hid, harn, hvid, haz⟩ := hwf s (List.mem_cons_self s rest)
    obtain ⟨sid, hsid⟩ := Option.isSome_iff_exists.mp hid
    unfold gatherLoop
    rw [hsid]
    simp only []
    rw [if_neg (by simp [Option.isNone_iff_eq_none]; exact Option.isSome_iff_ne_none.mp harn)]
    rw [if_neg (by simp [Option.isNone_iff_eq_none]; exact Option.isSome_iff_ne_none.mp hvid)]
    rw [if_neg (by simp [Option.isNone_iff_eq_none]; exact Option.isSome_iff_ne_none.mp haz)]
    rw [if_neg hvpc]
    by_cases hv : stringValue s.VpcId ≠ vpc
    · rw [if_pos hv]
      constructor
      · intro _
        exact ⟨s, List.mem_cons_self s rest, hv⟩
      · intro _
        exact ⟨sid, stringValue s.VpcId, vpcFrom, vpc, rfl⟩
    · rw [if_neg hv]
      rw [ih vpc vpcFrom _ hvpc (fun u hu => hwf u (List.mem_cons_of_mem s hu))]
      constructor
      · rintro ⟨u, hu, hne⟩
        exact ⟨u, List.mem_cons_of_mem s hu, hne⟩
      · rintro ⟨u, hu, hne⟩
        rcases List.mem_cons.mp hu with rfl | hu'
        · exact absurd hne hv
        · exact ⟨u, hu', hne⟩

/-- C6: subnet gathering fails with the VPC-mismatch error exactly when
some supplied subnet's VPC ID differs from the first subnet's VPC ID (the
comparison baseline); on such an error no metadata is returned. -/
theorem claim_C6_vpc_mismatch (s0 : EC2SubnetRec) (ss : List EC2SubnetRec)
    (hwf : ∀ s ∈ s0 :: ss, s.SubnetId.isSome ∧ s.SubnetArn.isSome ∧
      s.VpcId.isSome ∧ s.AvailabilityZone.isSome)
    (h0 : stringValue s0.VpcId ≠ "") :
    ((∃ a b c d, gatherSubnetMetas (s0 :: ss) =
        Except.error (SubnetErr.vpcMismatch a b c d)) ↔
      ∃ s ∈ s0 :: ss, stringValue s.VpcId ≠ stringValue s0.VpcId) := by
  obtain ⟨hid, harn, hvid, haz⟩ := hwf s0 (List.mem_cons_self s0 ss)
  obtain ⟨sid0, hsid0⟩ := Option.isSome_iff_exists.mp hid
  unfold gatherSubnetMetas gatherLoop
  rw [hsid0]
  simp only []
  rw [if_neg (by simp [Option.isNone_iff_eq_none]; exact Option.isSome_iff_ne_none.mp harn)]
  rw [if_neg (by simp [Option.isNone_iff_eq_none]; exact Option.isSome_iff_ne_none.mp hvid)]
  rw [if_neg (by simp [Option.isNone_iff_eq_none]; exact Option.isSome_iff_ne_none.mp haz)]
  rw [if_pos trivial]
  rw [gatherLoop_mismatch_iff ss (stringValue s0.VpcId) sid0 _ h0
    (fun u hu => hwf u (List.mem_cons_of_mem s0 hu))]
  constructor
  · rintro ⟨u, hu, hne⟩
    exact ⟨u, List.mem_cons_of_mem s0 hu, hne⟩
  · rintro ⟨u, hu, hne⟩
    rcases List.mem_cons.mp hu with rfl | hu'
    · exact absurd rfl hne
    · exact ⟨u, hu', hne⟩

/-- Witness for C6: two subnets in different VPCs produce the mismatch
error. -/
theorem claim_C6_witness :
    ∃ a b c d, gatherSubnetMetas
      [⟨some "subnet-1", some "arn-1", some "vpc-1", some "us-east-1a", some "10.0.1.0/24"⟩,
       ⟨some "subnet-2", some "arn-2", some "vpc-2", some "us-east-1b", some "10.0.2.0/24"⟩] =
      Except.error (SubnetErr.vpcMismatch a b c d) :=
  (claim_C6_vpc_mismatch
    ⟨some "subnet-1", some "arn-1", some "vpc-1", some "us-east-1a", some "10.0.1.0/24"⟩
    [⟨some "subnet-2", some "arn-2", some "vpc-2", some "us-east-1b", some "10.0.2.0/24"⟩]
    (by decide) (by decide)).mpr
    ⟨⟨some "subnet-2", some "arn-2", some "vpc-2", some "us-east-1b", some "10.0.2.0/24"⟩,
      by decide, by decide⟩

/-! ## Claim C5: BYO-VPC verbatim copy -/

/-- Default records used by `List.getD` in the C5 statement. -/
def dSubnetSpec : SubnetSpec := ⟨"", d0, "", false⟩
def dAWSSubnet : AWSSubnet := ⟨"", d0, ⟨""⟩, false⟩

/-- Indexing the appended copies recovers the copy of the indexed input. -/
theorem getD_append_right_map (l : List SubnetSpec) (inp : List AWSSubnet)
    (i : Nat) (hi : i < inp.length) :
    (l ++ inp.map byoCopy).getD (l.length + i) dSubnetSpec =
      byoCopy (inp.getD i dAWSSubnet) := by
  rw [List.getD_eq_getElem?_getD, List.getElem?_append_right (by omega)]
  have : l.length + i - l.length = i := by omega
  rw [this, List.getElem?_map]
  rw [List.getElem?_eq_getElem hi]
  rw [List.getD_eq_getElem?_getD, List.getElem?_eq_getElem hi]
  rfl

/-- C5: in BYO mode, the plan's VPC descriptor is the existing VPC ID, no
error is returned, and for every classified input subnet exactly one output
record is emitted (the output count is the sum of the group sizes) whose
ID, CIDR block, availability zone and IsPublic flag equal the input
subnet's values unchanged. -/
theorem claim_C5_byo_copy (s : subnetsInput) (net0 : NetworkSpec) (i : Nat)
    (hi : i < s.privateSubnets.length + s.publicSubnets.length +
      s.edgeSubnets.length) :
    (setSubnetsBYOVPC s net0).2 = none ∧
    (setSubnetsBYOVPC s net0).1.VPC = { ID := s.vpc, CidrBlock := none } ∧
    (setSubnetsBYOVPC s net0).1.Subnets.length = net0.Subnets.length +
      (s.privateSubnets.length + s.publicSubnets.length + s.edgeSubnets.length) ∧
    ((setSubnetsBYOVPC s net0).1.Subnets.getD (net0.Subnets.length + i)
        dSubnetSpec).ID =
      ((s.privateSubnets ++ s.publicSubnets ++ s.edgeSubnets).getD i
        dAWSSubnet).ID ∧
    ((setSubnetsBYOVPC s net0).1.Subnets.getD (net0.Subnets.length + i)
        dSubnetSpec).CidrBlock =
      ((s.privateSubnets ++ s.publicSubnets ++ s.edgeSubnets).getD i
        dAWSSubnet).CIDR ∧
    ((setSubnetsBYOVPC s net0).1.Subnets.getD (net0.Subnets.length + i)
        dSubnetSpec).AvailabilityZone =
      ((s.privateSubnets ++ s.publicSubnets ++ s.edgeSubnets).getD i
        dAWSSubnet).Zone.Name ∧
    ((setSubnetsBYOVPC s net0).1.Subnets.getD (net0.Subnets.length + i)
        dSubnetSpec).IsPublic =
      ((s.privateSubnets ++ s.publicSubnets ++ s.edgeSubnets).getD i
        dAWSSubnet).Public := by
  have hmap : s.privateSubnets.map byoCopy ++ s.publicSubnets.map byoCopy ++
      s.edgeSubnets.map byoCopy =
      (s.privateSubnets ++ s.publicSubnets ++ s.edgeSubnets).map byoCopy := by
    rw [List.map_append, List.map_append]
  have hlen : i < (s.privateSubnets ++ s.publicSubnets ++ s.edgeSubnets).length := by
    simp only [List.length_append]
    omega
  have hgetD : (setSubnetsBYOVPC s net0).1.Subnets.getD
      (net0.Subnets.length + i) dSubnetSpec =
      byoCopy ((s.privateSubnets ++ s.publicSubnets ++ s.edgeSubnets).getD i
        dAWSSubnet) := by
    show (net0.Subnets ++ (s.privateSubnets.map byoCopy ++
      s.publicSubnets.map byoCopy ++ s.edgeSubnets.map byoCopy)).getD
        (net0.Subnets.length + i) dSubnetSpec = _
    rw [hmap]
    exact getD_append_right_map net0.Subnets _ i hlen
  refine ⟨rfl, rfl, ?_, ?_, ?_, ?_, ?_⟩
  · show (net0.Subnets ++ (s.privateSubnets.map byoCopy ++
      s.publicSubnets.map byoCopy ++ s.edgeSubnets.map byoCopy)).length = _
    rw [hmap]
    simp only [List.length_append, List.length_map]
  · rw [hgetD]; rfl
  · rw [hgetD]; rfl
  · rw [hgetD]; rfl
  · rw [hgetD]; rfl

/-- A BYO input with one private, one public and one edge subnet. -/
def c5InputSubnets : subnetsInput :=
  { vpc := "vpc-1",
    privateSubnets := [⟨"subnet-priv-a", ⟨167772416, 24⟩, ⟨"a"⟩, false⟩],
    publicSubnets := [⟨"subnet-pub-a", ⟨167772672, 24⟩, ⟨"a"⟩, true⟩],
    edgeSubnets := [⟨"subnet-edge-a", ⟨167772928, 24⟩, ⟨"edge-a"⟩, true⟩] }

/-- Witness for C5 at a concrete BYO input (index 0, the private
subnet). -/
theorem claim_C5_witness :
    (setSubnetsBYOVPC c5InputSubnets emptyNet).2 = none ∧
    (setSubnetsBYOVPC c5InputSubnets emptyNet).1.VPC =
      { ID := "vpc-1", CidrBlock := none } ∧
    (setSubnetsBYOVPC c5InputSubnets emptyNet).1.Subnets.length = 0 + (1 + 1 + 1) ∧
    ((setSubnetsBYOVPC c5InputSubnets emptyNet).1.Subnets.getD (0 + 0)
        dSubnetSpec).ID =
      ((c5InputSubnets.privateSubnets ++ c5InputSubnets.publicSubnets ++
        c5InputSubnets.edgeSubnets).getD 0 dAWSSubnet).ID ∧
    ((setSubnetsBYOVPC c5InputSubnets emptyNet).1.Subnets.getD (0 + 0)
        dSubnetSpec).CidrBlock =
      ((c5InputSubnets.privateSubnets ++ c5InputSubnets.publicSubnets ++
        c5InputSubnets.edgeSubnets).getD 0 dAWSSubnet).CIDR ∧
    ((setSubnetsBYOVPC c5InputSubnets emptyNet).1.Subnets.getD (0 + 0)
        dSubnetSpec).AvailabilityZone =
      ((c5InputSubnets.privateSubnets ++ c5InputSubnets.publicSubnets ++
        c5InputSubnets.edgeSubnets).getD 0 dAWSSubnet).Zone.Name ∧
    ((setSubnetsBYOVPC c5InputSubnets emptyNet).1.Subnets.getD (0 + 0)
        dSubnetSpec).IsPublic =
      ((c5InputSubnets.privateSubnets ++ c5InputSubnets.publicSubnets ++
        c5InputSubnets.edgeSubnets).getD 0 dAWSSubnet).Public :=
  claim_C5_byo_copy c5InputSubnets emptyNet 0 (by decide)
